import Mathlib

/-!
Verification development for the location-tracking repository.

The Python source (`project/sensors.py`, `tracking/sensors.py`,
`tracking/director.py`) is shallowly embedded below.  The two `Sensor`
classes are line-for-line duplicates up to the naming of the zone map
(`zm` / `location_map`); they are embedded once, using the `project`
module's field names.  Python dictionaries are modelled as insertion
ordered association lists, Python exceptions (IndexError, KeyError,
AttributeError, TypeError) as `Option`-valued functions returning `none`
at the crashing call.  Timestamps and signal strengths are integers.
-/

namespace LocTrack

/-- One observation event, as consumed by `Sensor.new_event_data`:
`event['data']['networkStatus']['cloudConnectors'][0]` carries the
connector `id` and `signalStrength`; `updateTime` is pre-converted to a
unix time integer (the source converts it via
`hlp.convert_event_data_timestamp`). -/
structure Event where
  ccon_id : String
  signalStrength : Int
  ux : Int
deriving DecidableEq

/-- State of one `Sensor` object (`project/sensors.py`, `Sensor.__init__`
and `__initialise_ccons_list`).  The `ccons` dict is an insertion-ordered
association list from connector id to row index; `rssi` rows hold
`none` for the initial Python `None` sentinel entries and `some v` for
integer values; `unixtime` and `max_rssi` likewise use `none` for `None`.
`zm_unknown` is `none` while the Python attribute is still unset. -/
structure Sensor where
  sensor_id : String
  unixtime : List (Option Int)
  values : List Int
  rssi : List (List (Option Int))
  ccons : List (String × Nat)
  ccon_ids : List String
  max_rssi : List (Option Int)
  n_events : Nat
  last_event : Int
  buffering : Bool
  event_buffer : List Event
  zm : List Nat
  zm_unknown : Option Nat
deriving DecidableEq

/-- Python `ccon['id'] in self.ccons` on the dict modelled as an
association list. -/
def dictContains (d : List (String × Nat)) (k : String) : Bool :=
  d.any (fun p => p.1 == k)

/-- Python `self.ccons[k] = v`: updating an existing key keeps its
position, a new key is appended (insertion order preserved). -/
def dictInsert (d : List (String × Nat)) (k : String) (v : Nat) : List (String × Nat) :=
  if dictContains d k then d.map (fun p => if p.1 == k then (k, v) else p)
  else d ++ [(k, v)]

/-- Python `self.ccons[k]` read access. -/
def dictLookup (d : List (String × Nat)) (k : String) : Option Nat :=
  (d.find? (fun p => p.1 == k)).map Prod.snd

/-- Body of the ccon/row initialisation loop of
`Sensor.__initialise_ccons_list`: `self.ccons[ccon] = len(self.ccons)`
and `self.rssi.append([None])`. -/
def initCconsStep (acc : List (String × Nat) × List (List (Option Int))) (ccon : String) :
    List (String × Nat) × List (List (Option Int)) :=
  (dictInsert acc.1 ccon acc.1.length, acc.2 ++ [[none]])

/-- The ccon/row initialisation loop of `Sensor.__initialise_ccons_list`:
for each zone, for each ccon, run `initCconsStep`.  Returns the
resulting dict and rssi matrix. -/
def initCcons (zones : List (List String)) : List (String × Nat) × List (List (Option Int)) :=
  zones.foldl (fun acc zone => zone.foldl initCconsStep acc) ([], [])

/-- The zone-map loop of `Sensor.__initialise_ccons_list`:
`for i in range(len(zones)): for j in range(len(zones[i]['ccons'])):
zm.append(i); zm_unknown = i + 1`.  The accumulator carries the current
zone index explicitly; the second component is `none` as long as the
`zm_unknown` attribute was never assigned. -/
def initZmAux : Nat → List (List String) → List Nat × Option Nat → List Nat × Option Nat
  | _, [], acc => acc
  | i, zone :: rest, acc =>
      initZmAux (i + 1) rest
        (zone.foldl (fun acc2 (_ : String) => (acc2.1 ++ [i], some (i + 1))) acc)

/-- Zone map and unknown-zone index produced by
`Sensor.__initialise_ccons_list`. -/
def initZm (zones : List (List String)) : List Nat × Option Nat :=
  initZmAux 0 zones ([], none)

/-- `Sensor.__init__` followed by `__initialise_ccons_list`: empty data
lists, one `None` sentinel entry in `unixtime`/`max_rssi`, one `[None]`
row per configured connector, `n_events = 1`. -/
def initSensor (zones : List (List String)) (sid : String) : Sensor :=
  { sensor_id := sid
    unixtime := [none]
    values := []
    rssi := (initCcons zones).2
    ccons := (initCcons zones).1
    ccon_ids := []
    max_rssi := [none]
    n_events := 1
    last_event := -1
    buffering := false
    event_buffer := []
    zm := (initZm zones).1
    zm_unknown := (initZm zones).2 }

/-- The buffer-deduplication part of `Sensor.new_event_data`: the loop
replaces every buffered event whose connector id equals the incoming
one; if none matched, the event is appended. -/
def bufferUpsert (buf : List Event) (e : Event) : List Event :=
  if buf.any (fun b => b.ccon_id == e.ccon_id) then
    buf.map (fun b => if b.ccon_id == e.ccon_id then e else b)
  else buf ++ [e]

/-- `Sensor.new_event_data`: upsert into the event buffer, record the
event's unix time in `last_event`, raise the `buffering` flag. -/
def new_event_data (s : Sensor) (e : Event) : Sensor :=
  { s with
    event_buffer := bufferUpsert s.event_buffer e
    last_event := e.ux
    buffering := true }

/-- One iteration of the `for event in self.event_buffer` loop inside
`Sensor.update_event_data`: register the connector if unknown (new rssi
row back-filled with `n_events - 1` zeros, dict entry `len(ccons)`,
`ccon_ids` append, `zm.append(zm_unknown)` — `none` if the `zm_unknown`
attribute was never set, modelling the AttributeError), then append the
event's signal strength to the connector's row.  `none` models a Python
exception. -/
def flushEvent (s : Sensor) (e : Event) : Option Sensor :=
  let s1 : Option Sensor :=
    if dictContains s.ccons e.ccon_id then some s
    else
      match s.zm_unknown with
      | none => none
      | some u =>
          some { s with
            rssi := s.rssi ++ [List.replicate (s.n_events - 1) (some 0)]
            ccons := dictInsert s.ccons e.ccon_id s.ccons.length
            ccon_ids := s.ccon_ids ++ [e.ccon_id]
            zm := s.zm ++ [u] }
  match s1 with
  | none => none
  | some t =>
      match dictLookup t.ccons e.ccon_id with
      | none => none
      | some idx =>
          if h : idx < t.rssi.length then
            some { t with rssi := t.rssi.set idx (t.rssi.get ⟨idx, h⟩ ++ [some e.signalStrength]) }
          else none

/-- The whole `for event in self.event_buffer` loop of
`Sensor.update_event_data`. -/
def flushEvents (s : Sensor) : List Event → Option Sensor
  | [] => some s
  | e :: rest =>
      match flushEvent s e with
      | none => none
      | some s' => flushEvents s' rest

/-- The padding loop of `Sensor.update_event_data` / `update_empty`:
rows shorter than `n_events` get a zero appended. -/
def padRows (rows : List (List (Option Int))) (n : Nat) : List (List (Option Int)) :=
  rows.map (fun row => if row.length < n then row ++ [some 0] else row)

/-- The argmax scan of `Sensor.update_event_data`:
`argmax = -1; valmax = -1; for i in range(len(rssi)): if rssi[i][-1] >
valmax: valmax = rssi[i][-1]; argmax = i`.  `row.getLast? = none` models
the IndexError on an empty row, a last element of `none` models the
TypeError of comparing Python `None` with an int. -/
def maxRssiScanAux : Nat → Int → Int → List (List (Option Int)) → Option (Int × Int)
  | _, a, m, [] => some (a, m)
  | i, a, m, row :: rest =>
      match row.getLast? with
      | some (some v) =>
          if v > m then maxRssiScanAux (i + 1) (Int.ofNat i) v rest
          else maxRssiScanAux (i + 1) a m rest
      | _ => none

/-- Argmax scan over the full rssi matrix, starting from
`argmax = -1, valmax = -1`. -/
def maxRssiScan (rows : List (List (Option Int))) : Option (Int × Int) :=
  maxRssiScanAux 0 (-1) (-1) rows

/-- `Sensor.update_event_data` (flush): reads the last buffered event's
timestamp (IndexError on an empty buffer, before any mutation), appends
the call time to `unixtime`, increments `n_events`, runs the buffer
loop, pads short rows, appends the scan's argmax to `max_rssi`, then
clears `buffering` and the buffer. -/
def update_event_data (s : Sensor) (ux_calltime : Int) : Option Sensor :=
  match s.event_buffer.getLast? with
  | none => none
  | some _ =>
      match flushEvents
          { s with unixtime := s.unixtime ++ [some ux_calltime], n_events := s.n_events + 1 }
          s.event_buffer with
      | none => none
      | some s2 =>
          match maxRssiScan (padRows s2.rssi s2.n_events) with
          | none => none
          | some am =>
              some { s2 with
                rssi := padRows s2.rssi s2.n_events,
                max_rssi := s2.max_rssi ++ [some am.1],
                buffering := false,
                event_buffer := [] }

/-- `Sensor.update_empty` (flushEmpty): increments `n_events`, appends
the call time to `unixtime` and `None` to `max_rssi`, pads every short
row with a zero.  The buffer and the `buffering` flag are untouched. -/
def update_empty (s : Sensor) (ux_calltime : Int) : Sensor :=
  { s with
    n_events := s.n_events + 1
    unixtime := s.unixtime ++ [some ux_calltime]
    max_rssi := s.max_rssi ++ [none]
    rssi := padRows s.rssi (s.n_events + 1) }

/-- The three operations a `Sensor` is driven by. -/
inductive Action where
  | ingest (e : Event)
  | flush (t : Int)
  | flushEmpty (t : Int)
deriving DecidableEq

/-- Apply one action; `none` propagates a Python exception raised by
`update_event_data`. -/
def applyAction (s : Sensor) : Action → Option Sensor
  | .ingest e => some (new_event_data s e)
  | .flush t => update_event_data s t
  | .flushEmpty t => some (update_empty s t)

/-- Run a sequence of actions. -/
def runTrace (s : Sensor) : List Action → Option Sensor
  | [] => some s
  | a :: tr =>
      match applyAction s a with
      | none => none
      | some s' => runTrace s' tr

/-- A state is reachable when some call sequence produces it from a
freshly constructed sensor. -/
def Reachable (zones : List (List String)) (sid : String) (s : Sensor) : Prop :=
  ∃ tr : List Action, runTrace (initSensor zones sid) tr = some s

/-- The flush/flushEmpty call times of a trace, in order. -/
def flushTimes : List Action → List Int
  | [] => []
  | .ingest _ :: tr => flushTimes tr
  | .flush t :: tr => t :: flushTimes tr
  | .flushEmpty t :: tr => t :: flushTimes tr

/-- Strict order on optional timestamps: comparing with a Python `None`
(TypeError) counts as false. -/
def optLtB : Option Int → Option Int → Bool
  | some x, some y => decide (x < y)
  | _, _ => false

/-- One event of the replay history, together with the device it targets
(`event_data['targetName']` basename). -/
structure RoutedEvent where
  target : String
  ev : Event
deriving DecidableEq

/-- `Director.__new_event_data`: serve the event to every sensor whose
identifier matches the target; an event for an unknown device reaches no
sensor and is dropped. -/
def dispatchEvent (sensors : List Sensor) (re : RoutedEvent) : List Sensor :=
  sensors.map (fun s => if s.sensor_id == re.target then new_event_data s re.ev else s)

/-- The inner catch-up loop of `Director.run_history`:
`while i < n_events and event_history_unixtime[i] < unix_now: serve
event i; i += 1`, expressed by structural recursion on the suffix of
not-yet-dispatched events (`events.drop i`). -/
def catchUpAux (now : Int) : List RoutedEvent → Nat → List Sensor → Nat × List Sensor
  | [], i, sensors => (i, sensors)
  | re :: rest, i, sensors =>
      if re.ev.ux < now then catchUpAux now rest (i + 1) (dispatchEvent sensors re)
      else (i, sensors)

/-- Catch-up starting from index `i`: returns the advanced index and
the sensors after dispatch. -/
def catchUp (events : List RoutedEvent) (now : Int) (i : Nat) (sensors : List Sensor) :
    Nat × List Sensor :=
  catchUpAux now (events.drop i) i sensors

/-- The per-sensor flush decision of `Director.run_history`: flush when
buffering with a non-empty buffer and the settle window (`buffertime`)
has elapsed since the last event, otherwise flush empty when the timeout
window has elapsed, otherwise leave the sensor alone. -/
def evalSensor (buffertime timeout now : Int) (s : Sensor) : Option Sensor :=
  if s.buffering = true ∧ 0 < s.event_buffer.length ∧ buffertime < now - s.last_event then
    update_event_data s now
  else if timeout < now - s.last_event then some (update_empty s now)
  else some s

/-- Cursor, next-undispatched-event index and sensor states of the
replay loop. -/
structure ReplayState where
  now : Int
  idx : Nat
  sensors : List Sensor
deriving DecidableEq

/-- The outer `while unix_now <= unix_end` loop of
`Director.run_history`, with explicit fuel: each iteration first catches
up on all events with timestamp strictly below the cursor, then
evaluates the flush conditions for every sensor, then advances the
cursor by one step. -/
def runHistoryLoop (events : List RoutedEvent) (unixEnd step buffertime timeout : Int) :
    Nat → ReplayState → Option ReplayState
  | 0, st => some st
  | fuel + 1, st =>
      if st.now ≤ unixEnd then
        match (catchUp events st.now st.idx st.sensors).2.mapM
            (evalSensor buffertime timeout st.now) with
        | none => none
        | some sensors' =>
            runHistoryLoop events unixEnd step buffertime timeout fuel
              ⟨st.now + step, (catchUp events st.now st.idx st.sensors).1, sensors'⟩
      else some st

/-- `Director.run_history` replay driver: the cursor starts at the first
observation's timestamp and the loop runs until it exceeds the last
observation's timestamp (the fuel `(last - first).toNat + 1` outlasts
the loop for any step `≥ 1`).  An empty history returns early. -/
def run_history (events : List RoutedEvent) (sensors : List Sensor)
    (step buffertime timeout : Int) : Option ReplayState :=
  match events.head?, events.getLast? with
  | some e0, some elast =>
      runHistoryLoop events elast.ev.ux step buffertime timeout
        ((elast.ev.ux - e0.ev.ux).toNat + 1) ⟨e0.ev.ux, 0, sensors⟩
  | _, _ => none

/-! ### Helper lemmas: lists and the dict model -/

/-- The ordered dict stores row indices 0,1,2,… in insertion order. -/
def RangeValues (d : List (String × Nat)) : Prop :=
  d.map Prod.snd = List.range d.length

lemma set_append_last {α : Type} (l : List α) (a b : α) :
    (l ++ [a]).set l.length b = l ++ [b] := by
  induction l with
  | nil => rfl
  | cons x xs ih => simp [ih]

lemma dictContains_iff {d : List (String × Nat)} {k : String} :
    dictContains d k = true ↔ k ∈ d.map Prod.fst := by
  simp [dictContains, List.any_eq_true, List.mem_map, beq_iff_eq]

lemma dictContains_false_iff {d : List (String × Nat)} {k : String} :
    dictContains d k = false ↔ ¬ k ∈ d.map Prod.fst := by
  rw [← dictContains_iff, Bool.not_eq_true]

lemma dictLookup_none_of_not_contains {d : List (String × Nat)} {k : String}
    (h : dictContains d k = false) : dictLookup d k = none := by
  simp only [dictContains, List.any_eq_false, beq_iff_eq] at h
  simp only [dictLookup, Option.map_eq_none', List.find?_eq_none, beq_iff_eq]
  exact h

lemma dictLookup_mem {d : List (String × Nat)} {k : String} {v : Nat}
    (h : dictLookup d k = some v) : (k, v) ∈ d := by
  simp only [dictLookup, Option.map_eq_some'] at h
  obtain ⟨p, hp, hv⟩ := h
  have hmem := List.mem_of_find?_eq_some hp
  have hk : p.1 = k := by simpa using List.find?_some hp
  have : p = (k, v) := by
    cases p; simp_all
  rwa [this] at hmem

lemma rv_lookup_lt {d : List (String × Nat)} {k : String} {v : Nat}
    (hrv : RangeValues d) (h : dictLookup d k = some v) : v < d.length := by
  have hmem : (k, v) ∈ d := dictLookup_mem h
  have : v ∈ d.map Prod.snd := List.mem_map.mpr ⟨(k, v), hmem, rfl⟩
  rw [hrv] at this
  exact List.mem_range.mp this

lemma rv_snd_nodup {d : List (String × Nat)} (hrv : RangeValues d) :
    (d.map Prod.snd).Nodup := by
  rw [hrv]; exact List.nodup_range _

lemma rv_lookup_inj {d : List (String × Nat)} {k1 k2 : String} {v1 v2 : Nat}
    (hrv : RangeValues d) (hne : k1 ≠ k2)
    (h1 : dictLookup d k1 = some v1) (h2 : dictLookup d k2 = some v2) : v1 ≠ v2 := by
  intro he
  have hm1 := dictLookup_mem h1
  have hm2 := dictLookup_mem h2
  have := List.inj_on_of_nodup_map (rv_snd_nodup hrv) hm1 hm2 (by simpa using he)
  exact hne (by simpa using congrArg Prod.fst this)

lemma rv_append {d : List (String × Nat)} (k : String) (hrv : RangeValues d) :
    RangeValues (d ++ [(k, d.length)]) := by
  unfold RangeValues at hrv ⊢
  simp [List.range_succ, hrv]

lemma dictLookup_append_self {d : List (String × Nat)} {k : String} (v : Nat)
    (h : dictContains d k = false) : dictLookup (d ++ [(k, v)]) k = some v := by
  induction d with
  | nil => simp [dictLookup, List.find?]
  | cons p d' ih =>
      have hp : (p.1 == k) = false := by
        by_contra hc
        simp only [Bool.not_eq_false] at hc
        simp [dictContains, hc] at h
      have h' : dictContains d' k = false := by
        simp only [dictContains, List.any_cons, hp, Bool.false_or] at h
        exact h
      simp only [List.cons_append, dictLookup, List.find?, hp]
      exact ih h'

lemma dictLookup_append_ne {d : List (String × Nat)} {k k' : String} (v : Nat)
    (hne : k' ≠ k) : dictLookup (d ++ [(k, v)]) k' = dictLookup d k' := by
  induction d with
  | nil => simp [dictLookup, List.find?, (beq_iff_eq (a := k) (b := k')).not.mpr (Ne.symm hne)]
  | cons p d' ih =>
      by_cases hp : (p.1 == k') = true
      · simp [dictLookup, List.find?, hp]
      · simp only [Bool.not_eq_true] at hp
        simp only [List.cons_append, dictLookup, List.find?, hp]
        exact ih

lemma dictInsert_fresh {d : List (String × Nat)} {k : String} (v : Nat)
    (h : dictContains d k = false) : dictInsert d k v = d ++ [(k, v)] := by
  simp [dictInsert, h]

/-! ### Initialisation lemmas -/

lemma foldCcons_spec (l : List String) : ∀ (d : List (String × Nat))
    (rs : List (List (Option Int))) (d' : List (String × Nat)) (rs' : List (List (Option Int))),
    l.foldl initCconsStep (d, rs) = (d', rs') →
    RangeValues d → (∀ k ∈ l, ¬ k ∈ d.map Prod.fst) → l.Nodup → rs.length = d.length →
    d'.map Prod.fst = d.map Prod.fst ++ l ∧ RangeValues d' ∧
      rs' = rs ++ List.replicate l.length [(none : Option Int)] ∧ rs'.length = d'.length := by
  induction l with
  | nil =>
      intro d rs d' rs' hfold hrv _ _ hlen
      simp only [List.foldl_nil] at hfold
      injection hfold with hd hr
      subst hd; subst hr
      simp_all
  | cons c l' ih =>
      intro d rs d' rs' hfold hrv hfresh hnd hlen
      have hc : dictContains d c = false :=
        dictContains_false_iff.mpr (hfresh c (by simp))
      have hstep : initCconsStep (d, rs) c = (d ++ [(c, d.length)], rs ++ [[none]]) := by
        simp [initCconsStep, dictInsert_fresh _ hc]
      simp only [List.foldl_cons, hstep] at hfold
      have hrv1 : RangeValues (d ++ [(c, d.length)]) := rv_append c hrv
      have hfresh1 : ∀ k ∈ l', ¬ k ∈ (d ++ [(c, d.length)]).map Prod.fst := by
        intro k hk
        simp only [List.map_append, List.mem_append, List.map_cons, List.mem_singleton]
        rintro (hmem | hmem)
        · exact hfresh k (by simp [hk]) hmem
        · simp only [List.map_nil, List.mem_cons, List.not_mem_nil, or_false] at hmem
          rcases List.nodup_cons.mp hnd with ⟨hcl, _⟩
          exact hcl (hmem ▸ hk)
      have hlen1 : (rs ++ [[(none : Option Int)]]).length = (d ++ [(c, d.length)]).length := by
        simp [hlen]
      obtain ⟨h1, h2, h3, h4⟩ :=
        ih (d ++ [(c, d.length)]) (rs ++ [[none]]) d' rs' hfold hrv1 hfresh1
          (List.nodup_cons.mp hnd).2 hlen1
      refine ⟨?_, h2, ?_, h4⟩
      · simp only [h1, List.map_append]
        simp
      · rw [h3, List.append_assoc, List.singleton_append, ← List.replicate_succ,
          List.length_cons]

lemma foldZones_spec (zs : List (List String)) : ∀ (d : List (String × Nat))
    (rs : List (List (Option Int))) (d' : List (String × Nat)) (rs' : List (List (Option Int))),
    zs.foldl (fun acc zone => zone.foldl initCconsStep acc) (d, rs) = (d', rs') →
    RangeValues d → (∀ k ∈ zs.flatten, ¬ k ∈ d.map Prod.fst) → zs.flatten.Nodup → rs.length = d.length →
    d'.map Prod.fst = d.map Prod.fst ++ zs.flatten ∧ RangeValues d' ∧
      rs' = rs ++ List.replicate zs.flatten.length [(none : Option Int)] ∧ rs'.length = d'.length := by
  induction zs with
  | nil =>
      intro d rs d' rs' hfold hrv _ _ hlen
      simp only [List.foldl_nil] at hfold
      injection hfold with hd hr
      subst hd; subst hr
      simp_all
  | cons z zs' ih =>
      intro d rs d' rs' hfold hrv hfresh hnd hlen
      simp only [List.flatten_cons] at hfresh hnd
      rw [List.nodup_append] at hnd
      obtain ⟨hndz, hndzs, hdisj⟩ := hnd
      simp only [List.foldl_cons] at hfold
      rcases h1 : z.foldl initCconsStep (d, rs) with ⟨d1, rs1⟩
      rw [h1] at hfold
      obtain ⟨k1, v1, r1, n1⟩ := foldCcons_spec z d rs d1 rs1 h1 hrv
        (fun k hk => hfresh k (List.mem_append.mpr (Or.inl hk))) hndz hlen
      have hfresh1 : ∀ k ∈ zs'.flatten, ¬ k ∈ d1.map Prod.fst := by
        intro k hk
        rw [k1, List.mem_append]
        rintro (hmem | hmem)
        · exact hfresh k (List.mem_append.mpr (Or.inr hk)) hmem
        · exact hdisj hmem hk
      obtain ⟨k2, v2, r2, n2⟩ := ih d1 rs1 d' rs' hfold v1 hfresh1 hndzs n1
      refine ⟨?_, v2, ?_, n2⟩
      · rw [k2, k1, List.append_assoc, List.flatten_cons]
      · rw [r2, r1, List.append_assoc, ← List.replicate_add, List.flatten_cons,
          List.length_append]

lemma initCcons_spec (zones : List (List String)) (h : zones.flatten.Nodup) :
    (initCcons zones).1.map Prod.fst = zones.flatten ∧ RangeValues (initCcons zones).1 ∧
      (initCcons zones).2 = List.replicate zones.flatten.length [(none : Option Int)] ∧
      (initCcons zones).2.length = (initCcons zones).1.length := by
  rcases hf : zones.foldl (fun acc zone => zone.foldl initCconsStep acc)
      (([] : List (String × Nat)), ([] : List (List (Option Int)))) with ⟨d', rs'⟩
  obtain ⟨h1, h2, h3, h4⟩ := foldZones_spec zones [] [] d' rs' hf (by simp [RangeValues])
    (by simp) h (by simp)
  simp only [initCcons, hf]
  simp_all

/-! ### The reachable-state invariant -/

/-- Invariant maintained by every reachable sensor state: the ccon dict
stores distinct keys with values 0,1,2,… in order, one rssi row per dict
entry, every row as long as `n_events` (one entry per committed tick),
the buffer holds at most one event per connector, the `buffering` flag
mirrors buffer non-emptiness, and `unixtime`/`max_rssi` are tick-aligned. -/
structure SensorInv (s : Sensor) : Prop where
  rv : RangeValues s.ccons
  kn : (s.ccons.map Prod.fst).Nodup
  rows_ccons : s.rssi.length = s.ccons.length
  rows_len : ∀ r ∈ s.rssi, r.length = s.n_events
  buf_nodup : (s.event_buffer.map Event.ccon_id).Nodup
  buf_flag : s.buffering = true ↔ s.event_buffer ≠ []
  ux_len : s.unixtime.length = s.n_events
  mr_len : s.max_rssi.length = s.n_events

lemma inv_init {zones : List (List String)} (sid : String) (h : zones.flatten.Nodup) :
    SensorInv (initSensor zones sid) := by
  obtain ⟨h1, h2, h3, h4⟩ := initCcons_spec zones h
  constructor
  · exact h2
  · show (List.map Prod.fst (initCcons zones).1).Nodup
    rw [h1]; exact h
  · exact h4
  · intro r hr
    rw [show (initSensor zones sid).rssi = (initCcons zones).2 from rfl, h3] at hr
    have := List.eq_of_mem_replicate hr
    simp [this, initSensor]
  · simp [initSensor]
  · simp [initSensor]
  · simp [initSensor]
  · simp [initSensor]

/-! ### Buffer (ingest) lemmas -/

lemma bufferUpsert_map_id (buf : List Event) (e : Event) :
    (bufferUpsert buf e).map Event.ccon_id =
      if buf.any (fun b => b.ccon_id == e.ccon_id) then buf.map Event.ccon_id
      else buf.map Event.ccon_id ++ [e.ccon_id] := by
  unfold bufferUpsert
  split
  · rw [List.map_map]
    refine List.map_congr_left ?_
    intro b _
    by_cases hb : (b.ccon_id == e.ccon_id) = true
    · simp [hb, (beq_iff_eq.mp hb).symm]
    · simp only [Bool.not_eq_true] at hb
      simp [beq_eq_false_iff_ne.mp hb]
  · simp

lemma bufferUpsert_ne_nil (buf : List Event) (e : Event) : bufferUpsert buf e ≠ [] := by
  unfold bufferUpsert
  split
  · intro hmap
    rename_i hany
    rcases List.any_eq_true.mp hany with ⟨b, hb, _⟩
    have := List.map_eq_nil_iff.mp hmap
    simp [this] at hb
  · simp

lemma bufferUpsert_nodup {buf : List Event} (e : Event)
    (h : (buf.map Event.ccon_id).Nodup) : ((bufferUpsert buf e).map Event.ccon_id).Nodup := by
  rw [bufferUpsert_map_id]
  split
  · exact h
  · rename_i hany
    rw [List.nodup_append]
    refine ⟨h, List.nodup_singleton _, ?_⟩
    intro a ha hae
    simp only [List.mem_singleton] at hae
    subst hae
    rcases List.mem_map.mp ha with ⟨b, hb, hid⟩
    have : buf.any (fun b => b.ccon_id == e.ccon_id) = true :=
      List.any_eq_true.mpr ⟨b, hb, by simp [hid]⟩
    simp [this] at hany

lemma inv_ingest {s : Sensor} (e : Event) (h : SensorInv s) :
    SensorInv (new_event_data s e) := by
  refine ⟨h.rv, h.kn, h.rows_ccons, h.rows_len, ?_, ?_, h.ux_len, h.mr_len⟩
  · exact bufferUpsert_nodup e h.buf_nodup
  · simp [new_event_data, bufferUpsert_ne_nil]

/-! ### flushEmpty lemmas -/

lemma padRows_len_all {rows : List (List (Option Int))} {n : Nat}
    (h : ∀ r ∈ rows, r.length = n) : ∀ r ∈ padRows rows (n + 1), r.length = n + 1 := by
  intro r hr
  rcases List.mem_map.mp hr with ⟨r0, hr0, heq⟩
  have := h r0 hr0
  subst heq
  simp [this]

lemma inv_update_empty {s : Sensor} (t : Int) (h : SensorInv s) :
    SensorInv (update_empty s t) := by
  refine ⟨h.rv, h.kn, ?_, ?_, h.buf_nodup, h.buf_flag, ?_, ?_⟩
  · simp [update_empty, padRows, h.rows_ccons]
  · exact fun r hr => padRows_len_all h.rows_len r hr
  · simp [update_empty, h.ux_len]
  · simp [update_empty, h.mr_len]

/-! ### Flush (update_event_data) lemmas -/

lemma flushEvent_known {s : Sensor} {e : Event} {idx : Nat}
    (hc : dictContains s.ccons e.ccon_id = true)
    (hl : dictLookup s.ccons e.ccon_id = some idx) (hlt : idx < s.rssi.length) :
    flushEvent s e =
      some { s with rssi := s.rssi.set idx (s.rssi.get ⟨idx, hlt⟩ ++ [some e.signalStrength]) } := by
  simp [flushEvent, hc, hl, hlt]

lemma flushEvent_unknown {s : Sensor} {e : Event} {z : Nat}
    (hc : dictContains s.ccons e.ccon_id = false)
    (hz : s.zm_unknown = some z) (hlen : s.rssi.length = s.ccons.length) :
    flushEvent s e =
      some { s with
        rssi := s.rssi ++ [List.replicate (s.n_events - 1) (some 0) ++ [some e.signalStrength]]
        ccons := s.ccons ++ [(e.ccon_id, s.ccons.length)]
        ccon_ids := s.ccon_ids ++ [e.ccon_id]
        zm := s.zm ++ [z] } := by
  have hins := dictInsert_fresh s.ccons.length hc
  have hlook : dictLookup (s.ccons ++ [(e.ccon_id, s.ccons.length)]) e.ccon_id
      = some s.ccons.length := dictLookup_append_self _ hc
  have hlt : s.ccons.length < s.rssi.length + 1 := by omega
  simp only [flushEvent, hc, Bool.false_eq_true, if_false, hz, hins, hlook,
    List.length_append, List.length_singleton, hlt, dif_pos, List.get_eq_getElem]
  simp only [show s.ccons.length = s.rssi.length from hlen.symm]
  rw [List.getElem_concat_length, set_append_last]
  rfl

lemma flushEvent_const {s : Sensor} {e : Event} {s' : Sensor}
    (h : flushEvent s e = some s') :
    s'.n_events = s.n_events ∧ s'.unixtime = s.unixtime ∧ s'.max_rssi = s.max_rssi ∧
      s'.buffering = s.buffering ∧ s'.event_buffer = s.event_buffer ∧
      s'.zm_unknown = s.zm_unknown ∧ s'.last_event = s.last_event ∧
      s'.sensor_id = s.sensor_id ∧ s'.values = s.values := by
  unfold flushEvent at h
  by_cases hc : dictContains s.ccons e.ccon_id = true
  · simp only [hc, if_true] at h
    cases hl : dictLookup s.ccons e.ccon_id with
    | none => simp [hl] at h
    | some idx =>
        simp only [hl, Option.dite_none_right_eq_some, Option.some.injEq] at h
        obtain ⟨hlt, heq⟩ := h
        subst heq
        simp
  · simp only [Bool.not_eq_true] at hc
    simp only [hc, Bool.false_eq_true, if_false] at h
    cases hz : s.zm_unknown with
    | none => simp [hz] at h
    | some u =>
        simp only [hz] at h
        cases hl : dictLookup (dictInsert s.ccons e.ccon_id s.ccons.length) e.ccon_id with
        | none => simp [hl] at h
        | some idx =>
            simp only [hl, Option.dite_none_right_eq_some, Option.some.injEq] at h
            obtain ⟨hlt, heq⟩ := h
            subst heq
            simp

lemma dictLookup_isSome_of_contains {d : List (String × Nat)} {k : String}
    (h : dictContains d k = true) : ∃ v, dictLookup d k = some v := by
  rcases List.any_eq_true.mp h with ⟨p, hp, hb⟩
  have : (d.find? (fun q => q.1 == k)).isSome = true := List.find?_isSome.mpr ⟨p, hp, hb⟩
  rcases Option.isSome_iff_exists.mp this with ⟨q, hq⟩
  exact ⟨q.2, by simp [dictLookup, hq]⟩

lemma flushEvent_some_elim {s : Sensor} {e : Event} {s' : Sensor}
    (hlen : s.rssi.length = s.ccons.length) (h : flushEvent s e = some s') :
    (∃ idx, ∃ hlt : idx < s.rssi.length, dictContains s.ccons e.ccon_id = true ∧
      dictLookup s.ccons e.ccon_id = some idx ∧
      s' = { s with rssi := s.rssi.set idx (s.rssi.get ⟨idx, hlt⟩ ++ [some e.signalStrength]) })
    ∨ (∃ z, dictContains s.ccons e.ccon_id = false ∧ s.zm_unknown = some z ∧
      s' = { s with
        rssi := s.rssi ++ [List.replicate (s.n_events - 1) (some 0) ++ [some e.signalStrength]]
        ccons := s.ccons ++ [(e.ccon_id, s.ccons.length)]
        ccon_ids := s.ccon_ids ++ [e.ccon_id]
        zm := s.zm ++ [z] }) := by
  by_cases hc : dictContains s.ccons e.ccon_id = true
  · left
    unfold flushEvent at h
    simp only [hc, if_true] at h
    cases hl : dictLookup s.ccons e.ccon_id with
    | none => simp [hl] at h
    | some idx =>
        simp only [hl, Option.dite_none_right_eq_some, Option.some.injEq] at h
        obtain ⟨hlt, heq⟩ := h
        exact ⟨idx, hlt, hc, rfl, heq.symm⟩
  · right
    simp only [Bool.not_eq_true] at hc
    cases hz : s.zm_unknown with
    | none =>
        unfold flushEvent at h
        simp [hc, hz] at h
    | some z =>
        rw [flushEvent_unknown hc hz hlen] at h
        rw [hz] at h
        injection h with h
        exact ⟨z, hc, rfl, h.symm⟩

lemma flushEvents_const : ∀ (evs : List Event) (s s' : Sensor),
    flushEvents s evs = some s' →
    s'.n_events = s.n_events ∧ s'.unixtime = s.unixtime ∧ s'.max_rssi = s.max_rssi ∧
      s'.buffering = s.buffering ∧ s'.event_buffer = s.event_buffer ∧
      s'.zm_unknown = s.zm_unknown ∧ s'.last_event = s.last_event ∧
      s'.sensor_id = s.sensor_id ∧ s'.values = s.values := by
  intro evs
  induction evs with
  | nil =>
      intro s s' h
      simp only [flushEvents] at h
      injection h with h
      subst h
      simp
  | cons e evs' ih =>
      intro s s' h
      simp only [flushEvents] at h
      cases hfe : flushEvent s e with
      | none => simp [hfe] at h
      | some s1 =>
          rw [hfe] at h
          obtain ⟨c1, c2, c3, c4, c5, c6, c7, c8, c9⟩ := flushEvent_const hfe
          obtain ⟨d1, d2, d3, d4, d5, d6, d7, d8, d9⟩ := ih s1 s' h
          exact ⟨d1.trans c1, d2.trans c2, d3.trans c3, d4.trans c4, d5.trans c5,
            d6.trans c6, d7.trans c7, d8.trans c8, d9.trans c9⟩

lemma flushEvents_append (l1 l2 : List Event) : ∀ (s : Sensor),
    flushEvents s (l1 ++ l2) = (flushEvents s l1).bind (fun v => flushEvents v l2) := by
  induction l1 with
  | nil => intro s; simp [flushEvents]
  | cons e l1' ih =>
      intro s
      simp only [List.cons_append, flushEvents]
      cases hfe : flushEvent s e with
      | none => simp
      | some s1 => simpa using ih s1

lemma flushEvents_inv : ∀ (evs : List Event) (u u' : Sensor),
    flushEvents u evs = some u' →
    RangeValues u.ccons → (u.ccons.map Prod.fst).Nodup → u.rssi.length = u.ccons.length →
    (evs.map Event.ccon_id).Nodup → 1 ≤ u.n_events →
    (∀ i, ∀ hi : i < u.rssi.length, (u.rssi.get ⟨i, hi⟩).length = u.n_events - 1 ∨
        (u.rssi.get ⟨i, hi⟩).length = u.n_events) →
    (∀ e ∈ evs, ∀ idx, dictLookup u.ccons e.ccon_id = some idx →
        ∀ hi : idx < u.rssi.length, (u.rssi.get ⟨idx, hi⟩).length = u.n_events - 1) →
    RangeValues u'.ccons ∧ (u'.ccons.map Prod.fst).Nodup ∧
      u'.rssi.length = u'.ccons.length ∧
      (∀ i, ∀ hi : i < u'.rssi.length, (u'.rssi.get ⟨i, hi⟩).length = u.n_events - 1 ∨
        (u'.rssi.get ⟨i, hi⟩).length = u.n_events) := by
  intro evs
  induction evs with
  | nil =>
      intro u u' h hrv hkn hlen _ _ hrows _
      simp only [flushEvents] at h
      injection h with h
      subst h
      exact ⟨hrv, hkn, hlen, hrows⟩
  | cons e evs' ih =>
      intro u u' h hrv hkn hlen hnd hne hrows hfresh
      simp only [flushEvents] at h
      cases hfe : flushEvent u e with
      | none => simp [hfe] at h
      | some u1 =>
          rw [hfe] at h
          have hnd' : (evs'.map Event.ccon_id).Nodup := (List.nodup_cons.mp hnd).2
          have hknotin : ¬ e.ccon_id ∈ evs'.map Event.ccon_id := (List.nodup_cons.mp hnd).1
          rcases flushEvent_some_elim hlen hfe with
            ⟨idx, hlt, hc, hl, hequ1⟩ | ⟨z, hc, hz, hequ1⟩
          · -- known connector: one row extended in place
            subst hequ1
            have hrow_e := hfresh e (by simp) idx hl hlt
            obtain ⟨g1, g2, g3, g4⟩ := ih _ u' h hrv hkn (by simp [hlen]) hnd' hne
              (by
                intro i hi
                simp only [List.get_eq_getElem, List.length_set] at hi ⊢
                by_cases hie : idx = i
                · subst hie
                  rw [List.getElem_set_self (by simpa using hlt)]
                  right
                  simp only [List.get_eq_getElem] at hrow_e
                  simp only [List.length_append, List.length_singleton]
                  omega
                · rw [List.getElem_set_ne hie _]
                  exact hrows i (by simpa using hi))
              (by
                intro e2 he2 idx2 hl2 hi
                have hne2 : e2.ccon_id ≠ e.ccon_id :=
                  fun hid => hknotin (hid ▸ List.mem_map.mpr ⟨e2, he2, rfl⟩)
                have hidx2ne : idx2 ≠ idx := rv_lookup_inj hrv hne2 hl2 hl
                simp only [List.get_eq_getElem, List.length_set] at hi ⊢
                rw [List.getElem_set_ne (fun hh => hidx2ne hh.symm) _]
                exact hfresh e2 (by simp [he2]) idx2 hl2 (by simpa using hi))
            exact ⟨g1, g2, g3, g4⟩
          · -- unknown connector: fresh row appended
            subst hequ1
            have hnotin : ¬ e.ccon_id ∈ u.ccons.map Prod.fst := dictContains_false_iff.mp hc
            obtain ⟨g1, g2, g3, g4⟩ := ih _ u' h (rv_append _ hrv)
              (by
                simp only [List.map_append]
                rw [List.nodup_append]
                refine ⟨hkn, by simp, ?_⟩
                intro a ha hae
                simp only [List.map_cons, List.map_nil, List.mem_singleton] at hae
                exact hnotin (hae ▸ ha))
              (by simp [hlen]) hnd' hne
              (by
                intro i hi
                simp only [List.get_eq_getElem, List.length_append,
                  List.length_singleton] at hi ⊢
                by_cases hiu : i < u.rssi.length
                · rw [List.getElem_append_left hiu]
                  exact hrows i hiu
                · have hieq : i = u.rssi.length := by omega
                  subst hieq
                  rw [List.getElem_concat_length]
                  · right
                    simp only [List.length_append, List.length_replicate,
                      List.length_singleton]
                    omega
                  · rfl)
              (by
                intro e2 he2 idx2 hl2 hi
                have hne2 : e2.ccon_id ≠ e.ccon_id :=
                  fun hid => hknotin (hid ▸ List.mem_map.mpr ⟨e2, he2, rfl⟩)
                have hl2u : dictLookup u.ccons e2.ccon_id = some idx2 := by
                  rwa [dictLookup_append_ne _ hne2] at hl2
                have hi' : idx2 < u.rssi.length := by
                  rw [hlen]; exact rv_lookup_lt hrv hl2u
                simp only [List.get_eq_getElem]
                rw [List.getElem_append_left hi']
                exact hfresh e2 (by simp [he2]) idx2 hl2u hi')
            exact ⟨g1, g2, g3, g4⟩

lemma update_event_data_elim {s : Sensor} {t : Int} {s' : Sensor}
    (h : update_event_data s t = some s') :
    ∃ s2 : Sensor, ∃ am : Int × Int, s.event_buffer ≠ [] ∧
      flushEvents { s with unixtime := s.unixtime ++ [some t], n_events := s.n_events + 1 }
          s.event_buffer = some s2 ∧
      maxRssiScan (padRows s2.rssi s2.n_events) = some am ∧
      s' = { s2 with
        rssi := padRows s2.rssi s2.n_events,
        max_rssi := s2.max_rssi ++ [some am.1],
        buffering := false,
        event_buffer := [] } := by
  unfold update_event_data at h
  split at h
  next hb => simp at h
  next ev hb =>
    split at h
    next hfl => simp at h
    next s2 hfl =>
      split at h
      next hsc => simp at h
      next am hsc =>
        injection h with h
        refine ⟨s2, am, ?_, hfl, hsc, h.symm⟩
        intro hnil
        rw [hnil] at hb
        simp at hb

lemma update_event_data_fields {s : Sensor} {t : Int} {s' : Sensor}
    (h : update_event_data s t = some s') :
    s'.n_events = s.n_events + 1 ∧ s'.unixtime = s.unixtime ++ [some t] ∧
      s'.buffering = false ∧ s'.event_buffer = [] := by
  obtain ⟨s2, am, _, hfl, _, heq⟩ := update_event_data_elim h
  obtain ⟨c1, c2, _, _, _, _, _, _, _⟩ := flushEvents_const _ _ _ hfl
  subst heq
  exact ⟨c1, c2, rfl, rfl⟩

lemma padRows_all {rows : List (List (Option Int))} {n : Nat} (hn : 1 ≤ n)
    (h : ∀ i, ∀ hi : i < rows.length,
        (rows.get ⟨i, hi⟩).length = n - 1 ∨ (rows.get ⟨i, hi⟩).length = n) :
    ∀ r ∈ padRows rows n, r.length = n := by
  intro r hr
  rcases List.mem_map.mp hr with ⟨r0, hr0, heq⟩
  obtain ⟨i, hi, hr0i⟩ := List.mem_iff_getElem.mp hr0
  have hlen := h i hi
  simp only [List.get_eq_getElem] at hlen
  rw [hr0i] at hlen
  subst heq
  rcases hlen with hl | hl
  · have hlt : r0.length < n := by omega
    simp only [hlt, if_true, List.length_append, List.length_singleton]
    omega
  · have hlt : ¬ r0.length < n := by omega
    simp only [hlt, if_false]
    exact hl

lemma inv_flush {s : Sensor} {t : Int} {s' : Sensor}
    (hinv : SensorInv s) (h : update_event_data s t = some s') : SensorInv s' := by
  obtain ⟨s2, am, hne, hfl, hsc, heq⟩ := update_event_data_elim h
  obtain ⟨c1, c2, c3, c4, c5, c6, c7, c8, c9⟩ := flushEvents_const _ _ _ hfl
  have hrows1 : ∀ i, ∀ hi : i < s.rssi.length,
      (s.rssi.get ⟨i, hi⟩).length = (s.n_events + 1) - 1 ∨
      (s.rssi.get ⟨i, hi⟩).length = s.n_events + 1 := by
    intro i hi
    left
    simpa using hinv.rows_len _ (List.get_mem s.rssi i hi)
  have hfresh1 : ∀ e ∈ s.event_buffer, ∀ idx, dictLookup s.ccons e.ccon_id = some idx →
      ∀ hi : idx < s.rssi.length, (s.rssi.get ⟨idx, hi⟩).length = (s.n_events + 1) - 1 := by
    intro e _ idx _ hi
    simpa using hinv.rows_len _ (List.get_mem s.rssi idx hi)
  obtain ⟨g1, g2, g3, g4⟩ := flushEvents_inv s.event_buffer _ s2 hfl hinv.rv hinv.kn
    hinv.rows_ccons hinv.buf_nodup (by show 1 ≤ s.n_events + 1; omega) hrows1 hfresh1
  have hn2 : s2.n_events = s.n_events + 1 := c1
  subst heq
  constructor
  · exact g1
  · exact g2
  · simp only [padRows, List.length_map]
    exact g3
  · intro r hr
    have : ∀ r ∈ padRows s2.rssi s2.n_events, r.length = s2.n_events := by
      refine padRows_all (by omega) ?_
      intro i hi
      rw [hn2]
      exact g4 i hi
    simpa using this r hr
  · simp
  · simp
  · show (s2.unixtime).length = s2.n_events
    rw [c2, hn2]
    simp [hinv.ux_len]
  · show (s2.max_rssi ++ [some am.1]).length = s2.n_events
    rw [c3, hn2]
    simp [hinv.mr_len]

lemma runTrace_inv : ∀ (tr : List Action) (s0 s : Sensor),
    SensorInv s0 → runTrace s0 tr = some s → SensorInv s := by
  intro tr
  induction tr with
  | nil =>
      intro s0 s h0 h
      simp only [runTrace] at h
      injection h with h
      subst h
      exact h0
  | cons a tr' ih =>
      intro s0 s h0 h
      simp only [runTrace] at h
      cases a with
      | ingest e =>
          simp only [applyAction] at h
          exact ih _ s (inv_ingest e h0) h
      | flush t =>
          simp only [applyAction] at h
          cases hf : update_event_data s0 t with
          | none => rw [hf] at h; simp at h
          | some s1 =>
              rw [hf] at h
              exact ih _ s (inv_flush h0 hf) h
      | flushEmpty t =>
          simp only [applyAction] at h
          exact ih _ s (inv_update_empty t h0) h

lemma inv_reachable {zones : List (List String)} {sid : String} {s : Sensor}
    (hz : zones.flatten.Nodup) (hr : Reachable zones sid s) : SensorInv s := by
  obtain ⟨tr, htr⟩ := hr
  exact runTrace_inv tr _ s (inv_init sid hz) htr

/-! ### Claim theorems -/

/-- C3: if flush (`update_event_data`) is invoked while the event buffer
is empty, the implementation fails fast — the unconditional
`event_buffer[-1]` access raises IndexError (modelled as `none`) before
any state is mutated, so no tick is committed and no argmax computation
occurs. -/
theorem c3_flush_empty_buffer_fails_fast (s : Sensor) (t : Int)
    (h : s.event_buffer = []) : update_event_data s t = none := by
  unfold update_event_data
  rw [h]
  rfl

/-- Witness for C3 at a freshly initialised sensor. -/
theorem c3_flush_empty_buffer_fails_fast_witness :
    (initSensor [["ConnA"]] "dev").event_buffer = [] ∧
      update_event_data (initSensor [["ConnA"]] "dev") 0 = none :=
  ⟨rfl, c3_flush_empty_buffer_fails_fast (initSensor [["ConnA"]] "dev") 0 rfl⟩

/-- C4: in every reachable state of a tracker built over a topology with
distinct connector ids (the spec's ZoneTopology is a connector→zone
mapping, hence duplicate-free), every rssi row — in particular the row
of every known connector — has length exactly `n_events` (the tick
count, starting at 1 for the sentinel initial tick), and each successful
flush (`update_event_data`) or flushEmpty (`update_empty`) increments
`n_events` by exactly one. -/
theorem c4_row_lengths_track_tick_count {zones : List (List String)} {sid : String}
    {s : Sensor} (hz : zones.flatten.Nodup) (hr : Reachable zones sid s) :
    (∀ r ∈ s.rssi, r.length = s.n_events) ∧
      (∀ c idx, dictLookup s.ccons c = some idx →
        ∃ hlt : idx < s.rssi.length, (s.rssi.get ⟨idx, hlt⟩).length = s.n_events) ∧
      (∀ t s', update_event_data s t = some s' → s'.n_events = s.n_events + 1) ∧
      (∀ t, (update_empty s t).n_events = s.n_events + 1) := by
  have hinv := inv_reachable hz hr
  refine ⟨hinv.rows_len, ?_, ?_, ?_⟩
  · intro c idx hl
    have hlt : idx < s.rssi.length := by
      rw [hinv.rows_ccons]
      exact rv_lookup_lt hinv.rv hl
    exact ⟨hlt, hinv.rows_len _ (List.get_mem s.rssi idx hlt)⟩
  · intro t s' h
    exact (update_event_data_fields h).1
  · intro t
    rfl

/-- Witness for C4 at the initial state of a one-zone topology. -/
theorem c4_row_lengths_track_tick_count_witness :
    [["ConnA"]].flatten.Nodup ∧
      ((∀ r ∈ (initSensor [["ConnA"]] "dev").rssi,
          r.length = (initSensor [["ConnA"]] "dev").n_events) ∧
        (∀ c idx, dictLookup (initSensor [["ConnA"]] "dev").ccons c = some idx →
          ∃ hlt : idx < (initSensor [["ConnA"]] "dev").rssi.length,
            ((initSensor [["ConnA"]] "dev").rssi.get ⟨idx, hlt⟩).length =
              (initSensor [["ConnA"]] "dev").n_events) ∧
        (∀ t s', update_event_data (initSensor [["ConnA"]] "dev") t = some s' →
          s'.n_events = (initSensor [["ConnA"]] "dev").n_events + 1) ∧
        (∀ t, (update_empty (initSensor [["ConnA"]] "dev") t).n_events =
          (initSensor [["ConnA"]] "dev").n_events + 1)) :=
  ⟨by decide, c4_row_lengths_track_tick_count (by decide) ⟨[], rfl⟩⟩

/-- C10: in every reachable state, the `buffering` flag is raised
exactly when the event buffer is non-empty; consequently, whenever the
scheduler's guard sees `buffering`, the `event_buffer[-1]` access at the
start of flush finds a last element. -/
theorem c10_buffering_iff_buffer_nonempty {zones : List (List String)} {sid : String}
    {s : Sensor} (hz : zones.flatten.Nodup) (hr : Reachable zones sid s) :
    (s.buffering = true ↔ s.event_buffer ≠ []) ∧
      (s.buffering = true → ∃ ev, s.event_buffer.getLast? = some ev) := by
  have hinv := inv_reachable hz hr
  refine ⟨hinv.buf_flag, ?_⟩
  intro hb
  have hne := hinv.buf_flag.mp hb
  cases hbuf : s.event_buffer.getLast? with
  | none => exact absurd (List.getLast?_eq_none_iff.mp hbuf) hne
  | some ev => exact ⟨ev, rfl⟩

/-- Witness for C10 after one ingest. -/
theorem c10_buffering_iff_buffer_nonempty_witness :
    ((new_event_data (initSensor [["ConnA"]] "dev") ⟨"ConnA", -50, 0⟩).buffering = true ↔
      (new_event_data (initSensor [["ConnA"]] "dev") ⟨"ConnA", -50, 0⟩).event_buffer ≠ []) ∧
      ((new_event_data (initSensor [["ConnA"]] "dev") ⟨"ConnA", -50, 0⟩).buffering = true →
        ∃ ev, (new_event_data (initSensor [["ConnA"]] "dev")
          ⟨"ConnA", -50, 0⟩).event_buffer.getLast? = some ev) :=
  c10_buffering_iff_buffer_nonempty (by decide) ⟨[Action.ingest ⟨"ConnA", -50, 0⟩], rfl⟩

lemma filter_map_replace_nil {buf : List Event} {e : Event}
    (h : ∀ b ∈ buf, b.ccon_id ≠ e.ccon_id) :
    (buf.map (fun b => if b.ccon_id == e.ccon_id then e else b)).filter
      (fun b => b.ccon_id == e.ccon_id) = [] := by
  induction buf with
  | nil => rfl
  | cons b buf' ih =>
      have hb : (b.ccon_id == e.ccon_id) = false :=
        beq_eq_false_iff_ne.mpr (h b (by simp))
      simp only [List.map_cons, hb, Bool.false_eq_true, if_false, List.filter_cons, hb]
      exact ih (fun b' hb' => h b' (by simp [hb']))

lemma bufferUpsert_filter_self {buf : List Event} {e : Event}
    (hnd : (buf.map Event.ccon_id).Nodup) :
    (bufferUpsert buf e).filter (fun b => b.ccon_id == e.ccon_id) = [e] := by
  unfold bufferUpsert
  split
  · rename_i hany
    induction buf with
    | nil => simp at hany
    | cons b buf' ih =>
        by_cases hb : (b.ccon_id == e.ccon_id) = true
        · simp only [List.map_cons, hb, if_true, List.filter_cons]
          have he : (e.ccon_id == e.ccon_id) = true := by simp
          simp only [he, if_true]
          have hbuf' : ∀ b' ∈ buf', b'.ccon_id ≠ e.ccon_id := by
            intro b' hb' heq
            have hbid : b.ccon_id = e.ccon_id := beq_iff_eq.mp hb
            have : b.ccon_id ∈ buf'.map Event.ccon_id :=
              List.mem_map.mpr ⟨b', hb', by rw [heq, hbid]⟩
            exact (List.nodup_cons.mp (by simpa using hnd)).1 this
          rw [filter_map_replace_nil hbuf']
        · simp only [Bool.not_eq_true] at hb
          have hnd' : (buf'.map Event.ccon_id).Nodup :=
            (List.nodup_cons.mp (by simpa using hnd)).2
          have hany' : (buf'.any fun b => b.ccon_id == e.ccon_id) = true := by
            simp only [List.any_cons, hb, Bool.false_or] at hany
            exact hany
          simp only [List.map_cons, hb, Bool.false_eq_true, if_false, List.filter_cons, hb]
          exact ih hnd' hany'
  · rename_i hany
    rw [List.filter_append]
    have h1 : buf.filter (fun b => b.ccon_id == e.ccon_id) = [] := by
      rw [List.filter_eq_nil_iff]
      intro b hb hbe
      exact hany (List.any_eq_true.mpr ⟨b, hb, hbe⟩)
    simp [h1]

lemma bufferUpsert_filter_other {buf : List Event} {e : Event} :
    (bufferUpsert buf e).filter (fun b => !(b.ccon_id == e.ccon_id)) =
      buf.filter (fun b => !(b.ccon_id == e.ccon_id)) := by
  unfold bufferUpsert
  split
  · rename_i hany
    clear hany
    induction buf with
    | nil => rfl
    | cons b buf' ih =>
        by_cases hb : (b.ccon_id == e.ccon_id) = true
        · have he : (e.ccon_id == e.ccon_id) = true := by simp
          simp only [List.map_cons, hb, if_true, List.filter_cons, he, Bool.not_true,
            Bool.false_eq_true, if_false]
          exact ih
        · simp only [Bool.not_eq_true] at hb
          simp only [List.map_cons, hb, Bool.false_eq_true, if_false, List.filter_cons,
            hb, Bool.not_false, if_true]
          rw [ih]
  · rw [List.filter_append]
    simp

/-- C7: in every reachable state the buffer holds at most one entry per
connector id; ingesting an event leaves exactly that event as the sole
buffered entry for its connector (last write wins) and leaves the
entries of all other connectors untouched. -/
theorem c7_buffer_upsert_semantics {zones : List (List String)} {sid : String}
    {s : Sensor} (hz : zones.flatten.Nodup) (hr : Reachable zones sid s) :
    (s.event_buffer.map Event.ccon_id).Nodup ∧
      (∀ e : Event,
        (new_event_data s e).event_buffer.filter (fun b => b.ccon_id == e.ccon_id) = [e] ∧
        (new_event_data s e).event_buffer.filter (fun b => !(b.ccon_id == e.ccon_id)) =
          s.event_buffer.filter (fun b => !(b.ccon_id == e.ccon_id))) := by
  have hinv := inv_reachable hz hr
  refine ⟨hinv.buf_nodup, ?_⟩
  intro e
  constructor
  · exact bufferUpsert_filter_self hinv.buf_nodup
  · exact bufferUpsert_filter_other

/-- Witness for C7: a double ingest for the same connector leaves
exactly the latest event buffered. -/
theorem c7_buffer_upsert_semantics_witness :
    ((new_event_data (initSensor [["ConnA"]] "dev")
        ⟨"ConnA", -50, 0⟩).event_buffer.map Event.ccon_id).Nodup ∧
      (∀ e : Event,
        (new_event_data (new_event_data (initSensor [["ConnA"]] "dev") ⟨"ConnA", -50, 0⟩)
            e).event_buffer.filter (fun b => b.ccon_id == e.ccon_id) = [e] ∧
        (new_event_data (new_event_data (initSensor [["ConnA"]] "dev") ⟨"ConnA", -50, 0⟩)
            e).event_buffer.filter (fun b => !(b.ccon_id == e.ccon_id)) =
          (new_event_data (initSensor [["ConnA"]] "dev")
            ⟨"ConnA", -50, 0⟩).event_buffer.filter (fun b => !(b.ccon_id == e.ccon_id))) :=
  ⟨(c7_buffer_upsert_semantics (by decide) ⟨[Action.ingest ⟨"ConnA", -50, 0⟩], rfl⟩).1,
    (c7_buffer_upsert_semantics (by decide) ⟨[Action.ingest ⟨"ConnA", -50, 0⟩], rfl⟩).2⟩

lemma dictContains_append (d : List (String × Nat)) (k0 : String) (v : Nat) (k : String) :
    dictContains (d ++ [(k0, v)]) k = (dictContains d k || (k0 == k)) := by
  simp [dictContains, List.any_append]

lemma flushEvents_not_contains : ∀ (l : List Event) (u u' : Sensor),
    flushEvents u l = some u' →
    RangeValues u.ccons → (u.ccons.map Prod.fst).Nodup → u.rssi.length = u.ccons.length →
    ∀ k, dictContains u.ccons k = false → ¬ k ∈ l.map Event.ccon_id →
    dictContains u'.ccons k = false ∧ RangeValues u'.ccons ∧
      (u'.ccons.map Prod.fst).Nodup ∧ u'.rssi.length = u'.ccons.length := by
  intro l
  induction l with
  | nil =>
      intro u u' h hrv hkn hlen k hk _
      simp only [flushEvents] at h
      injection h with h
      subst h
      exact ⟨hk, hrv, hkn, hlen⟩
  | cons e2 l' ih =>
      intro u u' h hrv hkn hlen k hk hkl
      simp only [flushEvents] at h
      cases hfe : flushEvent u e2 with
      | none => simp [hfe] at h
      | some u1 =>
          rw [hfe] at h
          have hkl' : ¬ k ∈ l'.map Event.ccon_id := by
            intro hmem
            exact hkl (by simp [hmem])
          have hkne : k ≠ e2.ccon_id := by
            intro hkeq
            exact hkl (by simp [hkeq])
          rcases flushEvent_some_elim hlen hfe with
            ⟨idx, hlt, hc, hl, hequ⟩ | ⟨z, hc, hz, hequ⟩
          · subst hequ
            exact ih _ u' h hrv hkn (by simp [hlen]) k hk hkl'
          · subst hequ
            have hkn1 : ((u.ccons ++ [(e2.ccon_id, u.ccons.length)]).map Prod.fst).Nodup := by
              simp only [List.map_append]
              rw [List.nodup_append]
              refine ⟨hkn, by simp, ?_⟩
              intro a ha hae
              simp only [List.map_cons, List.map_nil, List.mem_singleton] at hae
              exact (dictContains_false_iff.mp hc) (hae ▸ ha)
            have hk1 : dictContains (u.ccons ++ [(e2.ccon_id, u.ccons.length)]) k = false := by
              rw [dictContains_append, hk]
              simp [beq_eq_false_iff_ne.mpr (Ne.symm hkne)]
            exact ih _ u' h (rv_append _ hrv) hkn1 (by simp [hlen]) k hk1 hkl'

lemma flushEvents_preserve_row : ∀ (l : List Event) (u u' : Sensor),
    flushEvents u l = some u' →
    RangeValues u.ccons → (u.ccons.map Prod.fst).Nodup → u.rssi.length = u.ccons.length →
    ∀ k idx, (∀ e2 ∈ l, e2.ccon_id ≠ k) → dictLookup u.ccons k = some idx →
    ∀ hlt : idx < u.rssi.length,
    dictLookup u'.ccons k = some idx ∧ ∃ hlt2 : idx < u'.rssi.length,
      u'.rssi.get ⟨idx, hlt2⟩ = u.rssi.get ⟨idx, hlt⟩ := by
  intro l
  induction l with
  | nil =>
      intro u u' h _ _ _ k idx _ hl hlt
      simp only [flushEvents] at h
      injection h with h
      subst h
      exact ⟨hl, hlt, rfl⟩
  | cons e2 l' ih =>
      intro u u' h hrv hkn hlen k idx hne hl hlt
      simp only [flushEvents] at h
      cases hfe : flushEvent u e2 with
      | none => simp [hfe] at h
      | some u1 =>
          rw [hfe] at h
          have hne' : ∀ e3 ∈ l', e3.ccon_id ≠ k := fun e3 he3 => hne e3 (by simp [he3])
          have hkne : e2.ccon_id ≠ k := hne e2 (by simp)
          rcases flushEvent_some_elim hlen hfe with
            ⟨idx2, hlt2, hc, hl2, hequ⟩ | ⟨z, hc, hz, hequ⟩
          · subst hequ
            have hidxne : idx ≠ idx2 := rv_lookup_inj hrv (Ne.symm hkne) hl hl2
            obtain ⟨p1, p2, p3⟩ := ih _ u' h hrv hkn (by simp [hlen]) k idx hne' hl
              (by simpa using hlt)
            refine ⟨p1, p2, ?_⟩
            rw [p3]
            simp only [List.get_eq_getElem]
            exact List.getElem_set_ne (fun hh => hidxne hh.symm) _
          · subst hequ
            have hkn1 : ((u.ccons ++ [(e2.ccon_id, u.ccons.length)]).map Prod.fst).Nodup := by
              simp only [List.map_append]
              rw [List.nodup_append]
              refine ⟨hkn, by simp, ?_⟩
              intro a ha hae
              simp only [List.map_cons, List.map_nil, List.mem_singleton] at hae
              exact (dictContains_false_iff.mp hc) (hae ▸ ha)
            have hl1 : dictLookup (u.ccons ++ [(e2.ccon_id, u.ccons.length)]) k = some idx := by
              rw [dictLookup_append_ne _ (Ne.symm hkne)]
              exact hl
            obtain ⟨p1, p2, p3⟩ := ih _ u' h (rv_append _ hrv) hkn1 (by simp [hlen]) k idx hne'
              hl1 (by simp only [List.length_append, List.length_singleton]; omega)
            refine ⟨p1, p2, ?_⟩
            rw [p3]
            simp only [List.get_eq_getElem]
            exact List.getElem_append_left hlt

/-- C5: a connector first observed during the flush that commits tick
index `k` (where `k` is the pre-flush `n_events`, i.e. the number of
already-committed ticks, at least 1 because of the sentinel initial
tick) gets a freshly registered row consisting of exactly `k` zero
entries for ticks `0..k-1` followed by its first real sample at tick
`k`. -/
theorem c5_new_connector_backfilled {zones : List (List String)} {sid : String}
    {s : Sensor} (hz : zones.flatten.Nodup) (hr : Reachable zones sid s)
    {e : Event} {t : Int} {s' : Sensor}
    (he : e ∈ s.event_buffer) (hnew : dictContains s.ccons e.ccon_id = false)
    (h : update_event_data s t = some s') :
    ∃ idx, dictLookup s'.ccons e.ccon_id = some idx ∧
      ∃ hlt : idx < s'.rssi.length,
        s'.rssi.get ⟨idx, hlt⟩ =
          List.replicate s.n_events (some 0) ++ [some e.signalStrength] := by
  have hinv := inv_reachable hz hr
  obtain ⟨s2, am, hbne, hfl, hsc, heq⟩ := update_event_data_elim h
  obtain ⟨l1, l2, hbuf⟩ := List.append_of_mem he
  nth_rewrite 2 [hbuf] at hfl
  rw [flushEvents_append] at hfl
  cases hfl1 : flushEvents
      { s with unixtime := s.unixtime ++ [some t], n_events := s.n_events + 1 } l1 with
  | none => rw [hfl1] at hfl; simp at hfl
  | some u1 =>
      rw [hfl1] at hfl
      simp only [Option.some_bind, flushEvents] at hfl
      cases hfe : flushEvent u1 e with
      | none => rw [hfe] at hfl; simp at hfl
      | some u2 =>
          rw [hfe] at hfl
          -- buffer id decomposition
          have hids : (s.event_buffer.map Event.ccon_id).Nodup := hinv.buf_nodup
          rw [hbuf] at hids
          simp only [List.map_append, List.map_cons] at hids
          rw [List.nodup_append] at hids
          obtain ⟨hnd1, hnd2, hdisj⟩ := hids
          have henotl1 : ¬ e.ccon_id ∈ l1.map Event.ccon_id := by
            intro hmem
            exact hdisj hmem (by simp)
          have henotl2 : ∀ e2 ∈ l2, e2.ccon_id ≠ e.ccon_id := by
            intro e2 he2 heq2
            exact (List.nodup_cons.mp hnd2).1 (heq2 ▸ List.mem_map.mpr ⟨e2, he2, rfl⟩)
          -- phase 1: e's connector is still unknown after l1
          obtain ⟨hc1, rv1, kn1, len1⟩ := flushEvents_not_contains l1 _ u1 hfl1
            hinv.rv hinv.kn hinv.rows_ccons e.ccon_id hnew henotl1
          obtain ⟨cn1, _, _, _, _, _, _, _, _⟩ := flushEvents_const _ _ _ hfl1
          -- phase 2: e registers a back-filled row at index u1.ccons.length
          rcases flushEvent_some_elim len1 hfe with
            ⟨idx2, _, hc2, _, _⟩ | ⟨z, hc2, hz2, hequ2⟩
          · rw [hc1] at hc2
            exact absurd hc2 (by simp)
          · subst hequ2
            have hn1 : u1.n_events = s.n_events + 1 := cn1
            have hlook2 : dictLookup (u1.ccons ++ [(e.ccon_id, u1.ccons.length)]) e.ccon_id
                = some u1.ccons.length := dictLookup_append_self _ hc1
            have hkn2 : ((u1.ccons ++ [(e.ccon_id, u1.ccons.length)]).map Prod.fst).Nodup := by
              simp only [List.map_append]
              rw [List.nodup_append]
              refine ⟨kn1, by simp, ?_⟩
              intro a ha hae
              simp only [List.map_cons, List.map_nil, List.mem_singleton] at hae
              exact (dictContains_false_iff.mp hc1) (hae ▸ ha)
            -- phase 3: the rest of the buffer leaves that row alone
            obtain ⟨p1, p2, p3⟩ := flushEvents_preserve_row l2 _ s2 hfl
              (rv_append _ rv1) hkn2 (by simp [len1]) e.ccon_id u1.ccons.length
              henotl2 hlook2
              (by simp only [List.length_append, List.length_singleton]; omega)
            have hrowval : s2.rssi.get ⟨u1.ccons.length, p2⟩ =
                List.replicate s.n_events (some 0) ++ [some e.signalStrength] := by
              rw [p3]
              simp only [List.get_eq_getElem]
              simp only [show u1.ccons.length = u1.rssi.length from len1.symm]
              rw [List.getElem_concat_length]
              · rw [hn1]
                simp
              · rfl
            -- phase 4: padding leaves the full-length row unchanged
            obtain ⟨cn2, _, _, _, _, _, _, _, _⟩ := flushEvents_const _ _ _ hfl
            have hn2 : s2.n_events = s.n_events + 1 := by
              rw [cn2]
              simpa using hn1
            subst heq
            refine ⟨u1.ccons.length, p1, ?_⟩
            have hplen : u1.ccons.length < (padRows s2.rssi s2.n_events).length := by
              simpa [padRows] using p2
            refine ⟨hplen, ?_⟩
            simp only [padRows, List.get_eq_getElem, List.getElem_map]
            simp only [List.get_eq_getElem] at hrowval
            rw [hrowval]
            have hlenrow : (List.replicate s.n_events (some (0 : Int))
                ++ [some e.signalStrength]).length = s.n_events + 1 := by simp
            rw [if_neg]
            omega

/-- Witness for C5: connector ConnB first observed at tick 1 gets one
leading zero (covering the sentinel tick 0) before its sample. -/
theorem c5_new_connector_backfilled_witness :
    (⟨"ConnB", -7, 0⟩ : Event) ∈
        (new_event_data (initSensor [["ConnA"]] "dev") ⟨"ConnB", -7, 0⟩).event_buffer ∧
      dictContains (new_event_data (initSensor [["ConnA"]] "dev")
        ⟨"ConnB", -7, 0⟩).ccons "ConnB" = false ∧
      update_event_data (new_event_data (initSensor [["ConnA"]] "dev") ⟨"ConnB", -7, 0⟩) 1 =
        some ⟨"dev", [none, some 1], [], [[none, some 0], [some 0, some (-7)]],
          [("ConnA", 0), ("ConnB", 1)], ["ConnB"], [none, some 0], 2, 0, false, [], [0, 1],
          some 1⟩ ∧
      (∃ idx, dictLookup (⟨"dev", [none, some 1], [], [[none, some 0], [some 0, some (-7)]],
          [("ConnA", 0), ("ConnB", 1)], ["ConnB"], [none, some 0], 2, 0, false, [], [0, 1],
          some 1⟩ : Sensor).ccons "ConnB" = some idx ∧
        ∃ hlt : idx < (⟨"dev", [none, some 1], [], [[none, some 0], [some 0, some (-7)]],
          [("ConnA", 0), ("ConnB", 1)], ["ConnB"], [none, some 0], 2, 0, false, [], [0, 1],
          some 1⟩ : Sensor).rssi.length,
          (⟨"dev", [none, some 1], [], [[none, some 0], [some 0, some (-7)]],
          [("ConnA", 0), ("ConnB", 1)], ["ConnB"], [none, some 0], 2, 0, false, [], [0, 1],
          some 1⟩ : Sensor).rssi.get ⟨idx, hlt⟩ =
            List.replicate (new_event_data (initSensor [["ConnA"]] "dev")
              ⟨"ConnB", -7, 0⟩).n_events (some 0) ++ [some (-7 : Int)]) :=
  ⟨by decide, by decide, by decide,
    @c5_new_connector_backfilled [["ConnA"]] "dev"
      (new_event_data (initSensor [["ConnA"]] "dev") ⟨"ConnB", -7, 0⟩)
      (by decide) ⟨[Action.ingest ⟨"ConnB", -7, 0⟩], rfl⟩
      ⟨"ConnB", -7, 0⟩ 1
      ⟨"dev", [none, some 1], [], [[none, some 0], [some 0, some (-7)]],
        [("ConnA", 0), ("ConnB", 1)], ["ConnB"], [none, some 0], 2, 0, false, [], [0, 1],
        some 1⟩
      (by decide) (by decide) (by decide)⟩

/-! ### Zone map lemmas (C6) -/

lemma zmFold (zone : List String) (i : Nat) : ∀ acc : List Nat × Option Nat,
    zone.foldl (fun acc2 (_ : String) => (acc2.1 ++ [i], some (i + 1))) acc =
      (acc.1 ++ List.replicate zone.length i, if zone.isEmpty then acc.2 else some (i + 1)) := by
  induction zone with
  | nil => intro acc; simp
  | cons c zone' ih =>
      intro acc
      simp only [List.foldl_cons]
      rw [ih]
      cases zone'.isEmpty <;> simp [List.replicate_succ]

lemma initZmAux_snd (zl : List String) (hzl : zl ≠ []) : ∀ (zs : List (List String)) (i : Nat)
    (acc : List Nat × Option Nat),
    zs.getLast? = some zl → (initZmAux i zs acc).2 = some (i + zs.length) := by
  intro zs
  induction zs with
  | nil => intro i acc h; simp at h
  | cons z rest ih =>
      intro i acc h
      cases rest with
      | nil =>
          have hz : z = zl := by simpa using h
          show (z.foldl (fun acc2 (_ : String) => (acc2.1 ++ [i], some (i + 1))) acc).2
            = some (i + 1)
          rw [zmFold]
          have : z.isEmpty = false := by
            rw [hz]
            cases zl with
            | nil => exact absurd rfl hzl
            | cons a l => rfl
          simp [this]
      | cons z2 rest' =>
          have h' : (z2 :: rest').getLast? = some zl := by
            rwa [List.getLast?_cons_cons] at h
          show (initZmAux (i + 1) (z2 :: rest')
            (z.foldl (fun acc2 (_ : String) => (acc2.1 ++ [i], some (i + 1))) acc)).2 = _
          rw [ih (i + 1) _ h']
          congr 1
          simp
          omega

lemma initZm_snd (zones : List (List String)) (zl : List String)
    (hlast : zones.getLast? = some zl) (hzl : zl ≠ []) :
    (initZm zones).2 = some zones.length := by
  have := initZmAux_snd zl hzl zones 0 ([], none) hlast
  simpa [initZm] using this

/-- C6 amended: the distinguished unknown-zone index equals
`(index of the last zone with at least one connector) + 1`; it equals
`zone_count` exactly when the topology's last zone is non-empty (the
counterexample shows an empty trailing zone shifts it below
`zone_count`).  A connector absent from configuration, registered during
a flush, gets exactly that index appended to the zone map. -/
theorem c6_unknown_zone_index_amended (zones : List (List String)) (sid : String)
    (zl : List String) (hlast : zones.getLast? = some zl) (hzl : zl ≠ []) :
    (initSensor zones sid).zm_unknown = some zones.length ∧
      (∀ (s : Sensor) (e : Event) (z : Nat) (s' : Sensor),
        dictContains s.ccons e.ccon_id = false → s.zm_unknown = some z →
        s.rssi.length = s.ccons.length → flushEvent s e = some s' →
        s'.zm = s.zm ++ [z]) := by
  constructor
  · show (initZm zones).2 = some zones.length
    exact initZm_snd zones zl hlast hzl
  · intro s e z s' hc hz hlen hfe
    rw [flushEvent_unknown hc hz hlen] at hfe
    injection hfe with hfe
    rw [← hfe]

/-- Witness for C6 (amended) on a topology whose last zone is
non-empty, including a concrete unknown-connector registration. -/
theorem c6_unknown_zone_index_amended_witness :
    ([["ConnA"]] : List (List String)).getLast? = some ["ConnA"] ∧
      (initSensor [["ConnA"]] "dev").zm_unknown = some 1 ∧
      (∀ (s : Sensor) (e : Event) (z : Nat) (s' : Sensor),
        dictContains s.ccons e.ccon_id = false → s.zm_unknown = some z →
        s.rssi.length = s.ccons.length → flushEvent s e = some s' →
        s'.zm = s.zm ++ [z]) :=
  ⟨by decide, (c6_unknown_zone_index_amended [["ConnA"]] "dev" ["ConnA"] (by decide)
      (by decide)).1,
    (c6_unknown_zone_index_amended [["ConnA"]] "dev" ["ConnA"] (by decide) (by decide)).2⟩

/-- C6 counterexample: with topology `[[ConnA], []]` (two zones, the
second empty) the unknown-zone index is 1, not `zone_count = 2`; the
unknown connector ConnC registered during a flush is mapped to zone
index 1. -/
theorem c6_counterexample :
    ([["ConnA"], []] : List (List String)).length = 2 ∧
      (initSensor [["ConnA"], []] "dev").zm_unknown = some 1 ∧
      (runTrace (initSensor [["ConnA"], []] "dev")
        [.ingest ⟨"ConnC", -50, 0⟩, .flush 1]).map Sensor.zm = some [0, 1] ∧
      ¬ (initSensor [["ConnA"], []] "dev").zm_unknown = some 2 :=
  ⟨rfl, by decide, by decide, by decide⟩

/-! ### Argmax scan lemmas (C1, C2) -/

lemma le_foldl_max (l : List Int) : ∀ b : Int, b ≤ l.foldl max b := by
  induction l with
  | nil => intro b; simp
  | cons v l' ih =>
      intro b
      simp only [List.foldl_cons]
      exact le_trans (le_max_left b v) (ih _)

lemma mem_le_foldl_max (l : List Int) : ∀ (b w : Int), w ∈ l → w ≤ l.foldl max b := by
  induction l with
  | nil => intro b w hw; simp at hw
  | cons v l' ih =>
      intro b w hw
      simp only [List.foldl_cons]
      rcases List.mem_cons.mp hw with rfl | hw'
      · exact le_trans (le_max_right b w) (le_foldl_max l' _)
      · exact ih _ w hw'

lemma foldl_max_all_le (l : List Int) : ∀ b : Int, (∀ w ∈ l, w ≤ b) → l.foldl max b = b := by
  induction l with
  | nil => intro b _; rfl
  | cons v l' ih =>
      intro b hle
      simp only [List.foldl_cons]
      rw [max_eq_left (hle v (by simp))]
      exact ih b (fun w hw => hle w (by simp [hw]))

lemma maxRssiScanAux_all_le : ∀ (rows : List (List (Option Int))) (vs : List Int)
    (i : Nat) (a m : Int),
    rows.map List.getLast? = vs.map (fun v => some (some v)) →
    (∀ v ∈ vs, v ≤ m) → maxRssiScanAux i a m rows = some (a, m) := by
  intro rows
  induction rows with
  | nil =>
      intro vs i a m hm _
      rfl
  | cons r rest ih =>
      intro vs i a m hm hle
      cases vs with
      | nil => simp at hm
      | cons v vs' =>
          simp only [List.map_cons, List.cons.injEq] at hm
          obtain ⟨hr, hrest⟩ := hm
          simp only [maxRssiScanAux, hr]
          rw [if_neg (by have := hle v (by simp); omega)]
          exact ih vs' (i + 1) a m hrest (fun w hw => hle w (by simp [hw]))

lemma maxRssiScanAux_first_max : ∀ (rows : List (List (Option Int))) (vs : List Int)
    (i : Nat) (a m : Int),
    rows.map List.getLast? = vs.map (fun v => some (some v)) →
    (∃ v ∈ vs, m < v) →
    ∃ j, ∃ hj : j < vs.length,
      maxRssiScanAux i a m rows = some (Int.ofNat (i + j), vs.foldl max m) ∧
      vs.get ⟨j, hj⟩ = vs.foldl max m ∧
      ∀ j2, ∀ hj2 : j2 < vs.length, j2 < j → vs.get ⟨j2, hj2⟩ < vs.foldl max m := by
  intro rows
  induction rows with
  | nil =>
      intro vs i a m hm hex
      have hvs : vs = [] := by
        cases vs with
        | nil => rfl
        | cons v vs' => simp at hm
      subst hvs
      simp at hex
  | cons r rest ih =>
      intro vs i a m hm hex
      cases vs with
      | nil => simp at hex
      | cons v vs' =>
          simp only [List.map_cons, List.cons.injEq] at hm
          obtain ⟨hr, hrest⟩ := hm
          by_cases hv : v > m
          · by_cases h2 : ∃ w ∈ vs', v < w
            · obtain ⟨j', hj', hscan, hget, hprev⟩ := ih vs' (i + 1) (Int.ofNat i) v hrest h2
              have hM : (v :: vs').foldl max m = vs'.foldl max v := by
                simp only [List.foldl_cons]
                rw [max_eq_right (le_of_lt hv)]
              refine ⟨j' + 1, by simpa using Nat.succ_lt_succ hj', ?_, ?_, ?_⟩
              · simp only [maxRssiScanAux, hr]
                rw [if_pos hv, hscan, hM, show i + 1 + j' = i + (j' + 1) from by omega]
              · rw [hM]
                simpa using hget
              · intro j2 hj2 hlt
                rw [hM]
                cases j2 with
                | zero =>
                    obtain ⟨w, hw, hvw⟩ := h2
                    simp only [List.get_eq_getElem, List.getElem_cons_zero]
                    exact lt_of_lt_of_le hvw (mem_le_foldl_max vs' v w hw)
                | succ j2' =>
                    have := hprev j2' (by omega) (by omega)
                    simpa using this
            · push_neg at h2
              have hM : (v :: vs').foldl max m = v := by
                simp only [List.foldl_cons]
                rw [max_eq_right (le_of_lt hv)]
                exact foldl_max_all_le vs' v h2
              refine ⟨0, by simp, ?_, ?_, ?_⟩
              · simp only [maxRssiScanAux, hr]
                rw [if_pos hv, maxRssiScanAux_all_le rest vs' (i + 1) (Int.ofNat i) v hrest h2,
                  hM]
                norm_num
              · simp [hM]
              · intro j2 hj2 hlt
                omega
          · push_neg at hv
            have hex' : ∃ w ∈ vs', m < w := by
              obtain ⟨w, hw, hmw⟩ := hex
              rcases List.mem_cons.mp hw with rfl | hw'
              · omega
              · exact ⟨w, hw', hmw⟩
            obtain ⟨j', hj', hscan, hget, hprev⟩ := ih vs' (i + 1) a m hrest hex'
            have hM : (v :: vs').foldl max m = vs'.foldl max m := by
              simp only [List.foldl_cons]
              rw [max_eq_left hv]
            refine ⟨j' + 1, by simpa using Nat.succ_lt_succ hj', ?_, ?_, ?_⟩
            · simp only [maxRssiScanAux, hr]
              rw [if_neg (by omega), hscan, hM, show i + 1 + j' = i + (j' + 1) from by omega]
            · rw [hM]
              simpa using hget
            · intro j2 hj2 hlt
              rw [hM]
              cases j2 with
              | zero =>
                  obtain ⟨w, hw, hmw⟩ := hex'
                  simp only [List.get_eq_getElem, List.getElem_cons_zero]
                  have := mem_le_foldl_max vs' m w hw
                  omega
              | succ j2' =>
                  have := hprev j2' (by omega) (by omega)
                  simpa using this

/-- C2 amended: whenever some just-appended value is non-negative, the
argmax scan of `update_event_data` selects the earliest row attaining
the maximum — the comparison is strict `>`, so later equal values never
displace the leader.  (When every value is negative the scan instead
returns the `-1` sentinel, which is the counterexample to the original
claim.) -/
theorem c2_argmax_earliest_of_nonneg {rows : List (List (Option Int))} {vs : List Int}
    (hmatch : rows.map List.getLast? = vs.map (fun v => some (some v)))
    (hnn : ∃ v ∈ vs, 0 ≤ v) :
    ∃ j, ∃ hj : j < vs.length,
      maxRssiScan rows = some (Int.ofNat j, vs.foldl max (-1)) ∧
      vs.get ⟨j, hj⟩ = vs.foldl max (-1) ∧
      ∀ j2, ∀ hj2 : j2 < vs.length, j2 < j → vs.get ⟨j2, hj2⟩ < vs.foldl max (-1) := by
  obtain ⟨v, hv, h0⟩ := hnn
  obtain ⟨j, hj, hscan, hget, hprev⟩ :=
    maxRssiScanAux_first_max rows vs 0 (-1) (-1) hmatch ⟨v, hv, by omega⟩
  exact ⟨j, hj, by simpa using hscan, hget, hprev⟩

/-- Witness for C2 (amended): two rows tie at the non-negative maximum 7
and the scan selects the earliest row, index 0. -/
theorem c2_argmax_earliest_of_nonneg_witness :
    (([[some 7], [some 7], [some 3]] : List (List (Option Int))).map List.getLast?
        = ([7, 7, 3] : List Int).map (fun v => some (some v))) ∧
      (∃ v ∈ ([7, 7, 3] : List Int), 0 ≤ v) ∧
      (∃ j, ∃ hj : j < ([7, 7, 3] : List Int).length,
        maxRssiScan [[some 7], [some 7], [some 3]]
            = some (Int.ofNat j, ([7, 7, 3] : List Int).foldl max (-1)) ∧
        ([7, 7, 3] : List Int).get ⟨j, hj⟩ = ([7, 7, 3] : List Int).foldl max (-1) ∧
        ∀ j2, ∀ hj2 : j2 < ([7, 7, 3] : List Int).length, j2 < j →
          ([7, 7, 3] : List Int).get ⟨j2, hj2⟩ < ([7, 7, 3] : List Int).foldl max (-1)) :=
  ⟨by decide, by decide, c2_argmax_earliest_of_nonneg (by decide) (by decide)⟩

/-- C2 counterexample: two connectors share the strictly greatest
appended value −5, yet the committed argmax is the sentinel −1, not the
earliest-registered connector (row 0): the scan's initial best value −1
beats every negative signal. -/
theorem c2_counterexample :
    (runTrace (initSensor [["ConnA", "ConnB"]] "dev")
        [.ingest ⟨"ConnA", -5, 0⟩, .ingest ⟨"ConnB", -5, 0⟩, .flush 2]).map Sensor.max_rssi
      = some [none, some (-1)] ∧
    ¬ (runTrace (initSensor [["ConnA", "ConnB"]] "dev")
        [.ingest ⟨"ConnA", -5, 0⟩, .ingest ⟨"ConnB", -5, 0⟩, .flush 2]).map Sensor.max_rssi
      = some [none, some 0] :=
  ⟨by decide, by decide⟩

/-- C1 counterexample: in the spec's Scenario A (ConnA at −50, ConnB at
−60, one zone Z0) the flush appends the sentinel argmax −1 — the tick's
assignment is not Known(Z0) via ConnA (which would be row index 0). -/
theorem c1_counterexample :
    (runTrace (initSensor [["ConnA", "ConnB"]] "dev")
        [.ingest ⟨"ConnA", -50, 0⟩, .ingest ⟨"ConnB", -60, 1⟩, .flush 2]).map Sensor.max_rssi
      = some [none, some (-1)] ∧
    ¬ (runTrace (initSensor [["ConnA", "ConnB"]] "dev")
        [.ingest ⟨"ConnA", -50, 0⟩, .ingest ⟨"ConnB", -60, 1⟩, .flush 2]).map Sensor.max_rssi
      = some [none, some 0] :=
  ⟨by decide, by decide⟩

/-- C1 amended: in Scenario A the flush does append −50 to ConnA's row
and −60 to ConnB's row in one new tick, but the recorded assignment is
the argmax sentinel −1 (no connector, hence no zone), because the scan
starts from best value −1 and no negative signal strength exceeds it. -/
theorem c1_scenario_a_rows_appended_sentinel_assignment :
    (runTrace (initSensor [["ConnA", "ConnB"]] "dev")
        [.ingest ⟨"ConnA", -50, 0⟩, .ingest ⟨"ConnB", -60, 1⟩, .flush 2]).map
        (fun s => (s.rssi, s.max_rssi, s.unixtime)) =
      some ([[none, some (-50)], [none, some (-60)]], [none, some (-1)], [none, some 2]) :=
  by decide

/-! ### Timestamp lemmas (C8) -/

lemma runTrace_unixtime : ∀ (tr : List Action) (s0 s : Sensor),
    runTrace s0 tr = some s →
    s.unixtime = s0.unixtime ++ (flushTimes tr).map (fun t => some t) := by
  intro tr
  induction tr with
  | nil =>
      intro s0 s h
      simp only [runTrace] at h
      injection h with h
      subst h
      simp [flushTimes]
  | cons a tr' ih =>
      intro s0 s h
      simp only [runTrace] at h
      cases a with
      | ingest e =>
          simp only [applyAction] at h
          rw [ih _ _ h]
          simp [flushTimes, new_event_data]
      | flush t =>
          simp only [applyAction] at h
          cases hf : update_event_data s0 t with
          | none => rw [hf] at h; simp at h
          | some s1 =>
              rw [hf] at h
              rw [ih _ _ h, (update_event_data_fields hf).2.1]
              simp [flushTimes]
      | flushEmpty t =>
          simp only [applyAction] at h
          rw [ih _ _ h]
          simp [flushTimes, update_empty]

/-- C8 amended: the committed timestamps after the initial `None`
sentinel are exactly the flush/flushEmpty call times, so they are
strictly increasing whenever the call times are strictly increasing
(which the scheduler's advancing cursor provides).  The original claim
fails both at the sentinel (no order against `None`) and under
non-monotone call times — see the counterexample. -/
theorem c8_timestamps_increasing_of_monotone_calls (zones : List (List String))
    (sid : String) (tr : List Action) (s : Sensor)
    (hmono : List.Pairwise (fun a b => a < b) (flushTimes tr))
    (h : runTrace (initSensor zones sid) tr = some s) :
    List.Pairwise (fun a b => optLtB a b = true) s.unixtime.tail := by
  rw [runTrace_unixtime tr _ s h]
  have hinit : (initSensor zones sid).unixtime = [none] := rfl
  rw [hinit]
  simp only [List.singleton_append, List.tail_cons]
  rw [List.pairwise_map]
  refine hmono.imp ?_
  intro a b hab
  simp [optLtB, hab]

/-- Witness for C8 (amended): one ingest then a flush at time 5. -/
theorem c8_timestamps_increasing_of_monotone_calls_witness :
    List.Pairwise (fun a b => a < b)
        (flushTimes [Action.ingest ⟨"ConnA", -50, 0⟩, Action.flush 5]) ∧
      List.Pairwise (fun a b => optLtB a b = true)
        ((⟨"dev", [none, some 5], [], [[none, some (-50)]], [("ConnA", 0)], [],
          [none, some (-1)], 2, 0, false, [], [0], some 1⟩ : Sensor)).unixtime.tail :=
  ⟨by decide,
    c8_timestamps_increasing_of_monotone_calls [["ConnA"]] "dev"
      [Action.ingest ⟨"ConnA", -50, 0⟩, Action.flush 5]
      ⟨"dev", [none, some 5], [], [[none, some (-50)]], [("ConnA", 0)], [],
        [none, some (-1)], 2, 0, false, [], [0], some 1⟩
      (by decide) (by decide)⟩

/-- C8 counterexample: flush at time 5 then at time 3 is a reachable
call sequence, and the resulting timestamp list `[None, 5, 3]` is not
strictly increasing — so the unconditional claim over every reachable
state is false. -/
theorem c8_counterexample :
    (runTrace (initSensor [["ConnA"]] "dev")
        [.ingest ⟨"ConnA", -50, 10⟩, .flush 5, .ingest ⟨"ConnA", -40, 11⟩, .flush 3]).map
        Sensor.unixtime = some [none, some 5, some 3] ∧
      ¬ List.Pairwise (fun a b => optLtB a b = true)
        ([none, some 5, some 3] : List (Option Int)) :=
  ⟨by decide, by decide⟩

/-! ### Replay scheduler lemmas (C9) -/

lemma catchUpAux_complete (events : List RoutedEvent) (now : Int)
    (hsort : List.Pairwise (fun a b => a.ev.ux ≤ b.ev.ux) events) :
    ∀ (l : List RoutedEvent) (i : Nat) (ss : List Sensor), events.drop i = l →
    ∀ j, ∀ hj : j < events.length, (events.get ⟨j, hj⟩).ev.ux < now →
      j < (catchUpAux now l i ss).1 := by
  intro l
  induction l with
  | nil =>
      intro i ss hdrop j hj htj
      have : events.length ≤ i := List.drop_eq_nil_iff.mp hdrop
      show j < i
      omega
  | cons re rest ih =>
      intro i ss hdrop j hj htj
      have hilt : i < events.length := by
        by_contra hge
        rw [List.drop_eq_nil_iff.mpr (by omega)] at hdrop
        exact absurd hdrop (by simp)
      have hhd : events[i] = re := by
        have h0 := congrArg (fun l : List RoutedEvent => l[0]?) hdrop
        simp only [List.getElem?_drop, Nat.add_zero, List.getElem?_cons_zero] at h0
        rw [List.getElem?_eq_getElem hilt] at h0
        simpa using h0
      have hrest : events.drop (i + 1) = rest := by
        have : events.drop (i + 1) = (events.drop i).drop 1 := by
          rw [List.drop_drop]
        rw [this, hdrop]
        rfl
      simp only [catchUpAux]
      by_cases ht : re.ev.ux < now
      · rw [if_pos ht]
        exact ih (i + 1) (dispatchEvent ss re) hrest j hj htj
      · rw [if_neg ht]
        show j < i
        rcases Nat.lt_or_ge j i with hji | hji
        · exact hji
        · exfalso
          rcases Nat.eq_or_lt_of_le hji with heq | hlt
          · apply ht
            rw [← hhd]
            simp only [List.get_eq_getElem] at htj
            simp only [← heq] at htj
            exact htj
          · have hmono := List.pairwise_iff_getElem.mp hsort i j hilt hj hlt
            rw [hhd] at hmono
            simp only [List.get_eq_getElem] at htj
            exact ht (by omega)

lemma catchUp_complete (events : List RoutedEvent) (now : Int)
    (hsort : List.Pairwise (fun a b => a.ev.ux ≤ b.ev.ux) events)
    (i : Nat) (ss : List Sensor) :
    ∀ j, ∀ hj : j < events.length, (events.get ⟨j, hj⟩).ev.ux < now →
      j < (catchUp events now i ss).1 :=
  catchUpAux_complete events now hsort (events.drop i) i ss rfl

lemma runHistoryLoop_gt_end (events : List RoutedEvent) (unixEnd step bt to2 : Int)
    (_hstep : 0 < step) : ∀ (fuel : Nat) (st st' : ReplayState),
    unixEnd < st.now + (fuel : Int) * step →
    runHistoryLoop events unixEnd step bt to2 fuel st = some st' → unixEnd < st'.now := by
  intro fuel
  induction fuel with
  | zero =>
      intro st st' hb hrun
      simp only [runHistoryLoop] at hrun
      injection hrun with hrun
      subst hrun
      simpa using hb
  | succ n ih =>
      intro st st' hb hrun
      simp only [runHistoryLoop] at hrun
      by_cases h : st.now ≤ unixEnd
      · rw [if_pos h] at hrun
        cases hm : (catchUp events st.now st.idx st.sensors).2.mapM
            (evalSensor bt to2 st.now) with
        | none => rw [hm] at hrun; simp at hrun
        | some ss' =>
            rw [hm] at hrun
            refine ih _ st' ?_ hrun
            show unixEnd < st.now + step + (n : Int) * step
            have hcast : ((n + 1 : Nat) : Int) * step = (n : Int) * step + step := by
              push_cast
              ring
            rw [hcast] at hb
            linarith
      · rw [if_neg h] at hrun
        injection hrun with hrun
        subst hrun
        omega

lemma runHistoryLoop_now_form (events : List RoutedEvent) (unixEnd step bt to2 : Int) :
    ∀ (fuel : Nat) (st st' : ReplayState),
    runHistoryLoop events unixEnd step bt to2 fuel st = some st' →
    ∃ k : Nat, st'.now = st.now + (k : Int) * step := by
  intro fuel
  induction fuel with
  | zero =>
      intro st st' hrun
      simp only [runHistoryLoop] at hrun
      injection hrun with hrun
      subst hrun
      exact ⟨0, by simp⟩
  | succ n ih =>
      intro st st' hrun
      simp only [runHistoryLoop] at hrun
      by_cases h : st.now ≤ unixEnd
      · rw [if_pos h] at hrun
        cases hm : (catchUp events st.now st.idx st.sensors).2.mapM
            (evalSensor bt to2 st.now) with
        | none => rw [hm] at hrun; simp at hrun
        | some ss' =>
            rw [hm] at hrun
            obtain ⟨k, hk⟩ := ih _ st' hrun
            refine ⟨k + 1, ?_⟩
            rw [hk]
            show st.now + step + (k : Int) * step = st.now + ((k + 1 : Nat) : Int) * step
            push_cast
            ring
      · rw [if_neg h] at hrun
        injection hrun with hrun
        subst hrun
        exact ⟨0, by simp⟩

/-- C9: the replay driver advances its cursor from the first
observation's timestamp in fixed steps; every iteration first delivers
all not-yet-dispatched observations with timestamp strictly below the
cursor (catch-up phase) and only then evaluates each tracker's
flush/flushEmpty conditions on the post-dispatch states; and the loop
terminates with the cursor strictly beyond the last observation's
timestamp. -/
theorem c9_replay_scheduler (events : List RoutedEvent) (sensors : List Sensor)
    (step bt to2 : Int) (e0 elast : RoutedEvent) (st' : ReplayState)
    (hstep : 0 < step)
    (hsort : List.Pairwise (fun a b => a.ev.ux ≤ b.ev.ux) events)
    (hhead : events.head? = some e0) (hlast : events.getLast? = some elast)
    (hrun : run_history events sensors step bt to2 = some st') :
    elast.ev.ux < st'.now ∧
      (∃ k : Nat, st'.now = e0.ev.ux + (k : Int) * step) ∧
      (∀ (now : Int) (i : Nat) (ss : List Sensor),
        ∀ j, ∀ hj : j < events.length, (events.get ⟨j, hj⟩).ev.ux < now →
          j < (catchUp events now i ss).1) ∧
      (∀ (fuel : Nat) (st : ReplayState), st.now ≤ elast.ev.ux →
        runHistoryLoop events elast.ev.ux step bt to2 (fuel + 1) st =
          match (catchUp events st.now st.idx st.sensors).2.mapM
              (evalSensor bt to2 st.now) with
          | none => none
          | some ss' => runHistoryLoop events elast.ev.ux step bt to2 fuel
              ⟨st.now + step, (catchUp events st.now st.idx st.sensors).1, ss'⟩) := by
  unfold run_history at hrun
  rw [hhead, hlast] at hrun
  refine ⟨?_, ?_, ?_, ?_⟩
  · refine runHistoryLoop_gt_end events elast.ev.ux step bt to2 hstep _
      ⟨e0.ev.ux, 0, sensors⟩ st' ?_ hrun
    show elast.ev.ux < e0.ev.ux + (((elast.ev.ux - e0.ev.ux).toNat + 1 : Nat) : Int) * step
    have h1 : elast.ev.ux - e0.ev.ux ≤ ((elast.ev.ux - e0.ev.ux).toNat : Int) :=
      Int.self_le_toNat _
    have h2 : (1 : Int) ≤ step := hstep
    have h3 : (0 : Int) ≤ (((elast.ev.ux - e0.ev.ux).toNat + 1 : Nat) : Int) := by positivity
    have h4 : (((elast.ev.ux - e0.ev.ux).toNat + 1 : Nat) : Int)
        ≤ (((elast.ev.ux - e0.ev.ux).toNat + 1 : Nat) : Int) * step :=
      le_mul_of_one_le_right h3 h2
    have h5 : elast.ev.ux - e0.ev.ux < (((elast.ev.ux - e0.ev.ux).toNat + 1 : Nat) : Int) := by
      push_cast
      omega
    linarith
  · have := runHistoryLoop_now_form events elast.ev.ux step bt to2 _
      ⟨e0.ev.ux, 0, sensors⟩ st' hrun
    simpa using this
  · intro now i ss
    exact catchUp_complete events now hsort i ss
  · intro fuel st h
    simp [runHistoryLoop, h]

/-- Witness for C9: a one-event history replayed over one sensor with
step 1 ends with the cursor one step past the only observation. -/
theorem c9_replay_scheduler_witness :
    (0 : Int) < 1 ∧
      run_history [⟨"dev", ⟨"ConnA", -50, 0⟩⟩] [initSensor [["ConnA"]] "dev"] 1 10 100 =
        some ⟨1, 0, [initSensor [["ConnA"]] "dev"]⟩ ∧
      ((⟨"dev", ⟨"ConnA", -50, 0⟩⟩ : RoutedEvent).ev.ux <
          (⟨1, 0, [initSensor [["ConnA"]] "dev"]⟩ : ReplayState).now ∧
        (∃ k : Nat, (⟨1, 0, [initSensor [["ConnA"]] "dev"]⟩ : ReplayState).now =
          (⟨"dev", ⟨"ConnA", -50, 0⟩⟩ : RoutedEvent).ev.ux + (k : Int) * 1) ∧
        (∀ (now : Int) (i : Nat) (ss : List Sensor),
          ∀ j, ∀ hj : j < ([⟨"dev", ⟨"ConnA", -50, 0⟩⟩] : List RoutedEvent).length,
            (([⟨"dev", ⟨"ConnA", -50, 0⟩⟩] : List RoutedEvent).get ⟨j, hj⟩).ev.ux < now →
            j < (catchUp [⟨"dev", ⟨"ConnA", -50, 0⟩⟩] now i ss).1) ∧
        (∀ (fuel : Nat) (st : ReplayState),
          st.now ≤ (⟨"dev", ⟨"ConnA", -50, 0⟩⟩ : RoutedEvent).ev.ux →
          runHistoryLoop [⟨"dev", ⟨"ConnA", -50, 0⟩⟩]
              (⟨"dev", ⟨"ConnA", -50, 0⟩⟩ : RoutedEvent).ev.ux 1 10 100 (fuel + 1) st =
            match (catchUp [⟨"dev", ⟨"ConnA", -50, 0⟩⟩] st.now st.idx st.sensors).2.mapM
                (evalSensor 10 100 st.now) with
            | none => none
            | some ss' => runHistoryLoop [⟨"dev", ⟨"ConnA", -50, 0⟩⟩]
                (⟨"dev", ⟨"ConnA", -50, 0⟩⟩ : RoutedEvent).ev.ux 1 10 100 fuel
                ⟨st.now + 1, (catchUp [⟨"dev", ⟨"ConnA", -50, 0⟩⟩] st.now st.idx st.sensors).1,
                  ss'⟩)) :=
  ⟨by decide, by decide,
    c9_replay_scheduler [⟨"dev", ⟨"ConnA", -50, 0⟩⟩] [initSensor [["ConnA"]] "dev"] 1 10 100
      ⟨"dev", ⟨"ConnA", -50, 0⟩⟩ ⟨"dev", ⟨"ConnA", -50, 0⟩⟩
      ⟨1, 0, [initSensor [["ConnA"]] "dev"]⟩
      (by decide) (by decide) (by decide) (by decide) (by decide)⟩

end LocTrack
